import Mathlib

/-!
Verification of `ruuvitag-listener` (Rust) against its natural-language
specification.

Shallow embedding conventions:
* Rust `&str` / `String` values manipulated character by character are
  embedded as `List Char`; map keys that are only compared for equality
  stay `String`.
* `f64` sensor values are embedded as `ℚ`; the textual rendering of a
  numeric field value is abstracted as a parameter `showNum : ℚ → List Char`
  (the structural claims hold for every renderer).
* `std::time::Instant` is an abstract monotone clock: functions that call
  `Instant::now()` receive the current instant `now : ℕ` explicitly.
  `Instant::duration_since` saturates at zero, which truncated `ℕ`
  subtraction models exactly.
* `SystemTime` timestamps are signed nanosecond offsets from the Unix
  epoch (`Int`); `duration_since(UNIX_EPOCH) … unwrap_or(0)` is `Int.toNat`.
* The external `ruuvi_decoders` crate (formats 5 and 6) is not part of the
  repository; its `decode` entry points are universally quantified oracles
  so that every theorem about `decode_ruuvi_data` holds for the real
  decoder.
-/

/-! ## Decimal rendering of unsigned integers (Rust `Display` for integers) -/

/-- One decimal digit (`n < 10`) as a character, `'0'`-based. -/
def decDigit (n : Nat) : Char := Char.ofNat (48 + n)

/-- Accumulator loop for decimal rendering, most significant digit first.
The first argument is fuel (an upper bound on the number of digits). -/
def natCharsAux : Nat → Nat → List Char → List Char
  | 0, _, acc => acc
  | fuel + 1, n, acc =>
    if n < 10 then decDigit n :: acc
    else natCharsAux fuel (n / 10) (decDigit (n % 10) :: acc)

/-- Decimal rendering of a natural number, as Rust's integer `Display`
(decimal digits, most significant first, no sign, `"0"` for zero). -/
def natChars (n : Nat) : List Char := natCharsAux (n + 1) n []

/-- Every character produced by `natCharsAux` on a digit-only accumulator is
a decimal digit. -/
theorem natCharsAux_digits (fuel : Nat) :
    ∀ n acc, (∀ c ∈ acc, ∃ d, d < 10 ∧ c = decDigit d) →
      ∀ c ∈ natCharsAux fuel n acc, ∃ d, d < 10 ∧ c = decDigit d := by
  induction fuel with
  | zero => intro n acc hacc c hc; exact hacc c hc
  | succ fuel ih =>
    intro n acc hacc c hc
    simp only [natCharsAux] at hc
    by_cases h : n < 10
    · rw [if_pos h] at hc
      rcases List.mem_cons.mp hc with hc | hc
      · exact ⟨n, h, hc⟩
      · exact hacc c hc
    · rw [if_neg h] at hc
      refine ih (n / 10) _ ?_ c hc
      intro c' hc'
      rcases List.mem_cons.mp hc' with hc' | hc'
      · exact ⟨n % 10, Nat.mod_lt _ (by omega), hc'⟩
      · exact hacc c' hc'

/-- `natCharsAux` never discards its accumulator. -/
theorem natCharsAux_ne_nil (fuel : Nat) :
    ∀ n acc, acc ≠ [] → natCharsAux fuel n acc ≠ [] := by
  induction fuel with
  | zero => intro n acc hacc; exact hacc
  | succ fuel ih =>
    intro n acc hacc
    simp only [natCharsAux]
    by_cases h : n < 10
    · rw [if_pos h]; exact List.cons_ne_nil _ _
    · rw [if_neg h]; exact ih _ _ (List.cons_ne_nil _ _)

/-- `natChars` is never empty. -/
theorem natChars_ne_nil (n : Nat) : natChars n ≠ [] := by
  unfold natChars
  simp only [natCharsAux]
  by_cases h : n < 10
  · rw [if_pos h]; exact List.cons_ne_nil _ _
  · rw [if_neg h]; exact natCharsAux_ne_nil _ _ _ (List.cons_ne_nil _ _)

/-- A rendered decimal digit is a digit character. -/
theorem decDigit_isDigit {d : Nat} (h : d < 10) : (decDigit d).isDigit = true := by
  interval_cases d <;> decide

/-- Every character of `natChars n` is a decimal digit character. -/
theorem natChars_isDigit (n : Nat) : ∀ c ∈ natChars n, c.isDigit = true := by
  intro c hc
  obtain ⟨d, hd, rfl⟩ := natCharsAux_digits (n + 1) n [] (by simp) c hc
  exact decDigit_isDigit hd

/-! ## Throttle (`src/throttle.rs`)

`Instant` is modelled as `ℕ` (nanoseconds of a monotone clock) and every
function that reads `Instant::now()` takes `now : ℕ` explicitly.  The
`HashMap<String, Instant>` is an association list without duplicate keys
(`insertKV` replaces in place, `retain` is `List.filter`). -/

/-- Association-list lookup, the embedding of `HashMap::get`. -/
def lookupKV : List (String × Nat) → String → Option Nat
  | [], _ => none
  | (k', v') :: rest, k => if k' = k then some v' else lookupKV rest k

/-- Association-list insert-or-replace, the embedding of `HashMap::insert`. -/
def insertKV : List (String × Nat) → String → Nat → List (String × Nat)
  | [], k, v => [(k, v)]
  | (k', v') :: rest, k, v =>
    if k' = k then (k, v) :: rest else (k', v') :: insertKV rest k v

/-- `Throttle`: minimum interval between events, last event time per MAC
address, and the call counter driving periodic cleanup. -/
structure Throttle where
  interval : Nat
  last_seen : List (String × Nat)
  check_count : Nat

/-- `CLEANUP_THRESHOLD_MULTIPLIER` -/
def CLEANUP_THRESHOLD_MULTIPLIER : Nat := 10

/-- `CLEANUP_CHECK_INTERVAL` -/
def CLEANUP_CHECK_INTERVAL : Nat := 100

/-- `CLEANUP_SIZE_THRESHOLD` -/
def CLEANUP_SIZE_THRESHOLD : Nat := 50

/-- `Throttle::new` -/
def Throttle.new (interval : Nat) : Throttle :=
  { interval := interval, last_seen := [], check_count := 0 }

/-- `Throttle::cleanup_stale`: with a zero interval do nothing, otherwise
retain exactly the entries whose age is at most
`CLEANUP_THRESHOLD_MULTIPLIER * interval`. -/
def Throttle.cleanup_stale (t : Throttle) (now : Nat) : Throttle :=
  if t.interval = 0 then t
  else
    { t with
      last_seen :=
        t.last_seen.filter
          (fun kv => now - kv.2 ≤ CLEANUP_THRESHOLD_MULTIPLIER * t.interval) }

/-- The opening statements of `Throttle::should_emit`: bump the call
counter and, every `CLEANUP_CHECK_INTERVAL` calls on a large enough map,
run `cleanup_stale`. -/
def Throttle.preSweep (t : Throttle) (now : Nat) : Throttle :=
  let t := { t with check_count := t.check_count + 1 }
  if t.check_count ≥ CLEANUP_CHECK_INTERVAL then
    let t := { t with check_count := 0 }
    if t.last_seen.length > CLEANUP_SIZE_THRESHOLD then t.cleanup_stale now
    else t
  else t

/-- `Throttle::should_emit`: after the periodic-cleanup preamble, consult
and update the per-device map.  Returns the emit decision and the updated
state. -/
def Throttle.should_emit (t : Throttle) (mac : String) (now : Nat) :
    Bool × Throttle :=
  let t := t.preSweep now
  match lookupKV t.last_seen mac with
  | some last =>
    if now - last < t.interval then (false, t)
    else (true, { t with last_seen := insertKV t.last_seen mac now })
  | none => (true, { t with last_seen := insertKV t.last_seen mac now })

/-! ### Association-list lemmas -/

theorem lookupKV_insertKV (l : List (String × Nat)) (k : String) (v : Nat) :
    lookupKV (insertKV l k v) k = some v := by
  induction l with
  | nil => simp [insertKV, lookupKV]
  | cons kv rest ih =>
    obtain ⟨k', v'⟩ := kv
    by_cases h : k' = k
    · simp [insertKV, lookupKV, h]
    · simp [insertKV, lookupKV, h, ih]

theorem lookupKV_eq_none_iff (l : List (String × Nat)) (k : String) :
    lookupKV l k = none ↔ ∀ kv ∈ l, kv.1 ≠ k := by
  induction l with
  | nil => simp [lookupKV]
  | cons kv rest ih =>
    obtain ⟨k', v'⟩ := kv
    by_cases h : k' = k
    · simp [lookupKV, h]
    · simp [lookupKV, h, ih]

theorem lookupKV_filter_none {l : List (String × Nat)} {k : String}
    (p : String × Nat → Bool) (h : lookupKV l k = none) :
    lookupKV (l.filter p) k = none := by
  rw [lookupKV_eq_none_iff] at h ⊢
  intro kv hkv
  exact h kv (List.mem_of_mem_filter hkv)

/-- On a duplicate-free map, looking up `k` after a `filter` finds the
original entry exactly when the entry passes the filter. -/
theorem lookupKV_filter_nodup {l : List (String × Nat)}
    (hnd : (l.map Prod.fst).Nodup) {k : String} {v : Nat}
    (p : String × Nat → Bool) (h : lookupKV l k = some v) :
    lookupKV (l.filter p) k = if p (k, v) then some v else none := by
  induction l with
  | nil => simp [lookupKV] at h
  | cons kv rest ih =>
    obtain ⟨k', v'⟩ := kv
    rw [List.map_cons, List.nodup_cons] at hnd
    by_cases hk : k' = k
    · rw [lookupKV, if_pos hk] at h
      obtain rfl : v' = v := by injection h
      have hnone : lookupKV rest k = none := by
        rw [lookupKV_eq_none_iff]
        intro kv hkv hfst
        apply hnd.1
        have hm : kv.1 ∈ rest.map Prod.fst := List.mem_map_of_mem Prod.fst hkv
        rwa [hfst, ← hk] at hm
      rw [← hk]
      by_cases hp : p (k', v')
      · rw [List.filter_cons_of_pos hp]
        simp [lookupKV, hp]
      · rw [List.filter_cons_of_neg hp]
        rw [if_neg (by simp [hp])]
        rw [hk]
        exact lookupKV_filter_none p hnone
    · rw [lookupKV, if_neg hk] at h
      have := ih hnd.2 h
      by_cases hp : p (k', v')
      · rw [List.filter_cons_of_pos hp, lookupKV, if_neg hk]
        exact this
      · rw [List.filter_cons_of_neg hp]
        exact this

/-! ### The state after the periodic-cleanup preamble -/

/-- `preSweep` keeps the interval and either keeps the map intact or (only
with a nonzero interval) filters it by the staleness predicate. -/
theorem preSweep_cases (t : Throttle) (now : Nat) :
    (t.preSweep now).interval = t.interval ∧
    ((t.preSweep now).last_seen = t.last_seen ∨
      (t.interval ≠ 0 ∧
        (t.preSweep now).last_seen =
          t.last_seen.filter
            (fun kv => now - kv.2 ≤ CLEANUP_THRESHOLD_MULTIPLIER * t.interval))) := by
  unfold Throttle.preSweep Throttle.cleanup_stale
  by_cases h1 : t.check_count + 1 ≥ CLEANUP_CHECK_INTERVAL
  · by_cases h2 : t.last_seen.length > CLEANUP_SIZE_THRESHOLD
    · by_cases h0 : t.interval = 0
      · simp [h1, h2, h0]
      · simp [h1, h2, h0]
    · simp [h1, h2]
  · simp [h1]

/-! ### `should_emit` branch lemmas -/

theorem should_emit_of_lookup_none {t : Throttle} {mac : String} {now : Nat}
    (h : lookupKV (t.preSweep now).last_seen mac = none) :
    t.should_emit mac now =
      (true,
        { t.preSweep now with
          last_seen := insertKV (t.preSweep now).last_seen mac now }) := by
  simp only [Throttle.should_emit]
  rw [h]

theorem should_emit_of_lookup_fresh {t : Throttle} {mac : String} {now last : Nat}
    (h : lookupKV (t.preSweep now).last_seen mac = some last)
    (hf : now - last < (t.preSweep now).interval) :
    t.should_emit mac now = (false, t.preSweep now) := by
  simp only [Throttle.should_emit]
  rw [h]
  simp [hf]

theorem should_emit_of_lookup_stale {t : Throttle} {mac : String} {now last : Nat}
    (h : lookupKV (t.preSweep now).last_seen mac = some last)
    (hs : ¬ now - last < (t.preSweep now).interval) :
    t.should_emit mac now =
      (true,
        { t.preSweep now with
          last_seen := insertKV (t.preSweep now).last_seen mac now }) := by
  simp only [Throttle.should_emit]
  rw [h]
  simp [hs]

/-- **C1**: for every device identifier, a call of `Throttle::should_emit`
with no recorded instant returns `true` and records the current instant; a
call within the configured interval of the recorded instant returns `false`
and leaves the recorded instant unchanged; a call at or after the interval
measured from the recorded (accepted) instant returns `true` and records
the current instant; and with a zero interval every call returns `true`. -/
theorem throttle_should_emit_correct (t : Throttle) (mac : String) (now : Nat)
    (hnd : (t.last_seen.map Prod.fst).Nodup) :
    (lookupKV t.last_seen mac = none →
      (t.should_emit mac now).1 = true ∧
      lookupKV (t.should_emit mac now).2.last_seen mac = some now) ∧
    (∀ last, lookupKV t.last_seen mac = some last →
      now - last < t.interval →
      (t.should_emit mac now).1 = false ∧
      lookupKV (t.should_emit mac now).2.last_seen mac = some last) ∧
    (∀ last, lookupKV t.last_seen mac = some last →
      t.interval ≤ now - last →
      (t.should_emit mac now).1 = true ∧
      lookupKV (t.should_emit mac now).2.last_seen mac = some now) ∧
    (t.interval = 0 → (t.should_emit mac now).1 = true) := by
  obtain ⟨hint, hmap⟩ := preSweep_cases t now
  refine ⟨?_, ?_, ?_, ?_⟩
  · -- no recorded instant: accepted and recorded
    intro h0
    have hu : lookupKV (t.preSweep now).last_seen mac = none := by
      rcases hmap with hmap | ⟨_, hmap⟩
      · rw [hmap]; exact h0
      · rw [hmap]; exact lookupKV_filter_none _ h0
    rw [should_emit_of_lookup_none hu]
    exact ⟨rfl, lookupKV_insertKV _ _ _⟩
  · -- within the interval: blocked, instant unchanged
    intro last h0 hlt
    have hpos : t.interval ≠ 0 := by omega
    have hu : lookupKV (t.preSweep now).last_seen mac = some last := by
      rcases hmap with hmap | ⟨_, hmap⟩
      · rw [hmap]; exact h0
      · rw [hmap, lookupKV_filter_nodup hnd _ h0, if_pos]
        have : CLEANUP_THRESHOLD_MULTIPLIER = 10 := rfl
        simp only [decide_eq_true_eq]
        unfold CLEANUP_THRESHOLD_MULTIPLIER
        omega
    rw [should_emit_of_lookup_fresh hu (by rw [hint]; exact hlt)]
    exact ⟨rfl, hu⟩
  · -- at or past the interval: accepted again, instant re-recorded
    intro last h0 hge
    have hcase :
        lookupKV (t.preSweep now).last_seen mac = some last ∨
        lookupKV (t.preSweep now).last_seen mac = none := by
      rcases hmap with hmap | ⟨_, hmap⟩
      · left; rw [hmap]; exact h0
      · rw [hmap, lookupKV_filter_nodup hnd _ h0]
        by_cases hp : now - last ≤ CLEANUP_THRESHOLD_MULTIPLIER * t.interval
        · left; simp [hp]
        · right; simp [hp]
    rcases hcase with hu | hu
    · rw [should_emit_of_lookup_stale hu (by rw [hint]; omega)]
      exact ⟨rfl, lookupKV_insertKV _ _ _⟩
    · rw [should_emit_of_lookup_none hu]
      exact ⟨rfl, lookupKV_insertKV _ _ _⟩
  · -- zero interval: always accepted
    intro h0
    cases hu : lookupKV (t.preSweep now).last_seen mac with
    | none => rw [should_emit_of_lookup_none hu]
    | some last =>
      rw [should_emit_of_lookup_stale hu (by rw [hint, h0]; omega)]

/-- Witness for C1: a concrete first/blocked/expired/zero-interval run. -/
theorem throttle_should_emit_correct_witness :
    ((Throttle.new 5).should_emit "AA" 3).1 = true ∧
    lookupKV ((Throttle.new 5).should_emit "AA" 3).2.last_seen "AA" = some 3 ∧
    ((Throttle.mk 5 [("AA", 3)] 1).should_emit "AA" 4).1 = false ∧
    lookupKV ((Throttle.mk 5 [("AA", 3)] 1).should_emit "AA" 4).2.last_seen "AA"
      = some 3 ∧
    ((Throttle.mk 5 [("AA", 3)] 2).should_emit "AA" 8).1 = true ∧
    lookupKV ((Throttle.mk 5 [("AA", 3)] 2).should_emit "AA" 8).2.last_seen "AA"
      = some 8 ∧
    ((Throttle.mk 0 [("AA", 3)] 3).should_emit "AA" 3).1 = true := by
  have h1 := throttle_should_emit_correct (Throttle.new 5) "AA" 3 (by decide)
  have h2 := throttle_should_emit_correct (Throttle.mk 5 [("AA", 3)] 1) "AA" 4
    (by decide)
  have h3 := throttle_should_emit_correct (Throttle.mk 5 [("AA", 3)] 2) "AA" 8
    (by decide)
  have h4 := throttle_should_emit_correct (Throttle.mk 0 [("AA", 3)] 3) "AA" 3
    (by decide)
  obtain ⟨e1, r1⟩ := h1.1 (by decide)
  obtain ⟨e2, r2⟩ := h2.2.1 3 (by decide) (by decide)
  obtain ⟨e3, r3⟩ := h3.2.2.1 3 (by decide) (by decide)
  exact ⟨e1, r1, e2, r2, e3, r3, h4.2.2.2 rfl⟩

/-- **C9**: `Throttle::cleanup_stale` removes exactly the entries whose
recorded instant is more than `CLEANUP_THRESHOLD_MULTIPLIER × interval`
old at sweep time, leaving every fresher entry present and unchanged;
sweeping an empty map is a no-op; and with a zero interval nothing is ever
removed. -/
theorem throttle_cleanup_stale_correct (t : Throttle) (now : Nat) :
    (t.interval ≠ 0 →
      ((t.cleanup_stale now).last_seen =
        t.last_seen.filter
          (fun kv => now - kv.2 ≤ CLEANUP_THRESHOLD_MULTIPLIER * t.interval) ∧
      ∀ kv, kv ∈ (t.cleanup_stale now).last_seen ↔
        (kv ∈ t.last_seen ∧
          ¬ CLEANUP_THRESHOLD_MULTIPLIER * t.interval < now - kv.2))) ∧
    (t.last_seen = [] → t.cleanup_stale now = t) ∧
    (t.interval = 0 → t.cleanup_stale now = t) := by
  refine ⟨?_, ?_, ?_⟩
  · intro h0
    unfold Throttle.cleanup_stale
    rw [if_neg h0]
    refine ⟨rfl, ?_⟩
    intro kv
    simp only [List.mem_filter, decide_eq_true_eq]
    exact and_congr_right fun _ => by omega
  · intro hemp
    unfold Throttle.cleanup_stale
    by_cases h0 : t.interval = 0
    · rw [if_pos h0]
    · rw [if_neg h0, hemp]
      cases t
      simp_all
  · intro h0
    unfold Throttle.cleanup_stale
    rw [if_pos h0]

/-- Witness for C9: a stale entry is swept while a fresh one survives; an
empty sweep and a zero-interval sweep change nothing. -/
theorem throttle_cleanup_stale_correct_witness :
    (Throttle.cleanup_stale (Throttle.mk 2 [("A", 0), ("B", 98)] 7) 100).last_seen
      = [("B", 98)] ∧
    Throttle.cleanup_stale (Throttle.mk 2 [] 7) 100 = Throttle.mk 2 [] 7 ∧
    Throttle.cleanup_stale (Throttle.mk 0 [("A", 0)] 7) 100
      = Throttle.mk 0 [("A", 0)] 7 := by
  refine ⟨?_, ?_, ?_⟩
  · rw [((throttle_cleanup_stale_correct
      (Throttle.mk 2 [("A", 0), ("B", 98)] 7) 100).1 (by decide)).1]
    decide
  · exact (throttle_cleanup_stale_correct (Throttle.mk 2 [] 7) 100).2.1 rfl
  · exact (throttle_cleanup_stale_correct
      (Throttle.mk 0 [("A", 0)] 7) 100).2.2 rfl

/-! ## Device identifier (`src/mac_address.rs`)

`MacAddress` is a 6-byte value.  Its `Display` implementation writes the
six bytes as two-digit uppercase hex, colon separated; `FromStr` splits on
`':'` and parses each part with `u8::from_str_radix(part, 16)`. -/

/-- A Bluetooth MAC address: six bytes. -/
structure MacAddress where
  b0 : Fin 256
  b1 : Fin 256
  b2 : Fin 256
  b3 : Fin 256
  b4 : Fin 256
  b5 : Fin 256
deriving DecidableEq

/-- One hex digit (`n < 16`) in the uppercase alphabet used by `{:02X}`. -/
def hexDigitUpper (n : Nat) : Char :=
  if n < 10 then Char.ofNat (48 + n) else Char.ofNat (55 + n)

/-- `Display for MacAddress`: `"{:02X}:{:02X}:{:02X}:{:02X}:{:02X}:{:02X}"`. -/
def macRender (m : MacAddress) : List Char :=
  [hexDigitUpper (m.b0.val / 16), hexDigitUpper (m.b0.val % 16), ':',
   hexDigitUpper (m.b1.val / 16), hexDigitUpper (m.b1.val % 16), ':',
   hexDigitUpper (m.b2.val / 16), hexDigitUpper (m.b2.val % 16), ':',
   hexDigitUpper (m.b3.val / 16), hexDigitUpper (m.b3.val % 16), ':',
   hexDigitUpper (m.b4.val / 16), hexDigitUpper (m.b4.val % 16), ':',
   hexDigitUpper (m.b5.val / 16), hexDigitUpper (m.b5.val % 16)]

/-- The value of one hex digit character, as `char::to_digit(16)`:
decimal digits, and both hex letter cases, are accepted. -/
def hexVal? (c : Char) : Option Nat :=
  if 48 ≤ c.toNat ∧ c.toNat ≤ 57 then some (c.toNat - 48)
  else if 65 ≤ c.toNat ∧ c.toNat ≤ 70 then some (c.toNat - 55)
  else if 97 ≤ c.toNat ∧ c.toNat ≤ 102 then some (c.toNat - 87)
  else none

/-- Digit-accumulation loop of `u8::from_str_radix(_, 16)`; fails on a
non-hex character or on overflow past `u8::MAX`. -/
def foldHexDigits (l : List Char) : Option Nat :=
  l.foldlM
    (fun acc c =>
      (hexVal? c).bind fun d =>
        let v := acc * 16 + d
        if v < 256 then some v else none)
    0

/-- `u8::from_str_radix(l, 16)`: an optional leading `'+'`, then at least
one hex digit. -/
def parseHexByteNat (l : List Char) : Option Nat :=
  match l with
  | [] => none
  | c :: rest =>
    if c = '+' then (if rest = [] then none else foldHexDigits rest)
    else foldHexDigits (c :: rest)

/-- `ParseMacError` -/
inductive ParseMacError where
  | invalidLength (n : Nat)
  | invalidPartLength (i : Nat)
  | invalidHex (part : List Char)
deriving DecidableEq

/-- The body of the `FromStr` loop for the part at index `i`: the length
check, then the radix-16 byte parse. -/
def parseMacPart (i : Nat) (p : List Char) : Except ParseMacError (Fin 256) :=
  if p.length ≠ 2 then .error (.invalidPartLength i)
  else
    match parseHexByteNat p with
    | some v => if hv : v < 256 then .ok ⟨v, hv⟩ else .error (.invalidHex p)
    | none => .error (.invalidHex p)

/-- Rust `str::split(':')`: every occurrence of `':'` separates parts,
empty parts included. -/
def splitOnColon : List Char → List (List Char)
  | [] => [[]]
  | c :: rest =>
    if c = ':' then [] :: splitOnColon rest
    else
      match splitOnColon rest with
      | [] => [[c]]
      | p :: ps => (c :: p) :: ps

/-- `FromStr for MacAddress`: split on `':'`, demand six parts, parse each
part in order as a two-digit hex byte. -/
def MacAddress.fromStr (s : List Char) : Except ParseMacError MacAddress :=
  match splitOnColon s with
  | [p0, p1, p2, p3, p4, p5] => do
    let b0 ← parseMacPart 0 p0
    let b1 ← parseMacPart 1 p1
    let b2 ← parseMacPart 2 p2
    let b3 ← parseMacPart 3 p3
    let b4 ← parseMacPart 4 p4
    let b5 ← parseMacPart 5 p5
    .ok ⟨b0, b1, b2, b3, b4, b5⟩
  | parts => .error (.invalidLength parts.length)

/-! ### Spec-side notions for C8 -/

/-- An uppercase hex digit character (`0`-`9`, `A`-`F`). -/
def isUpperHexDigit (c : Char) : Bool :=
  (48 ≤ c.toNat && c.toNat ≤ 57) || (65 ≤ c.toNat && c.toNat ≤ 70)

/-- The spec's canonical form: six colon-separated groups of exactly two
uppercase hex digits. -/
def isCanonicalMac (s : List Char) : Bool :=
  (splitOnColon s).length == 6 &&
    (splitOnColon s).all (fun p => p.length == 2 && p.all isUpperHexDigit)

/-- Lowercase rendering of a MAC (what the spec means by "lowercase hex"
input): same groups, lowercase hex alphabet. -/
def lowerHexDigit (n : Nat) : Char :=
  if n < 10 then Char.ofNat (48 + n) else Char.ofNat (87 + n)

/-- The lowercase counterpart of `macRender`. -/
def macRenderLower (m : MacAddress) : List Char :=
  [lowerHexDigit (m.b0.val / 16), lowerHexDigit (m.b0.val % 16), ':',
   lowerHexDigit (m.b1.val / 16), lowerHexDigit (m.b1.val % 16), ':',
   lowerHexDigit (m.b2.val / 16), lowerHexDigit (m.b2.val % 16), ':',
   lowerHexDigit (m.b3.val / 16), lowerHexDigit (m.b3.val % 16), ':',
   lowerHexDigit (m.b4.val / 16), lowerHexDigit (m.b4.val % 16), ':',
   lowerHexDigit (m.b5.val / 16), lowerHexDigit (m.b5.val % 16)]

/-! ### Split/join lemmas for `':'` -/

theorem splitOnColon_ne_nil (l : List Char) : splitOnColon l ≠ [] := by
  cases l with
  | nil => simp [splitOnColon]
  | cons c rest =>
    simp only [splitOnColon]
    by_cases hc : c = ':'
    · rw [if_pos hc]; exact List.cons_ne_nil _ _
    · rw [if_neg hc]
      cases splitOnColon rest with
      | nil => exact List.cons_ne_nil _ _
      | cons p ps => exact List.cons_ne_nil _ _

/-- Joining parts back with `':'`; inverse of `splitOnColon`. -/
def joinColon : List (List Char) → List Char
  | [] => []
  | [p] => p
  | p :: q :: ps => p ++ ':' :: joinColon (q :: ps)

theorem joinColon_splitOnColon (l : List Char) :
    joinColon (splitOnColon l) = l := by
  induction l with
  | nil => rfl
  | cons c rest ih =>
    by_cases hc : c = ':'
    · subst hc
      simp only [splitOnColon, if_pos rfl]
      obtain ⟨q, qs, hq⟩ : ∃ q qs, splitOnColon rest = q :: qs := by
        cases h : splitOnColon rest with
        | nil => exact absurd h (splitOnColon_ne_nil rest)
        | cons q qs => exact ⟨q, qs, rfl⟩
      rw [hq]
      rw [hq] at ih
      simp only [joinColon, List.nil_append]
      rw [ih]
    · simp only [splitOnColon, if_neg hc]
      cases h : splitOnColon rest with
      | nil => exact absurd h (splitOnColon_ne_nil rest)
      | cons p ps =>
        rw [h] at ih
        cases ps with
        | nil => simp only [joinColon] at ih ⊢; rw [ih]
        | cons q qs =>
          simp only [joinColon, List.cons_append] at ih ⊢
          rw [ih]

theorem splitOnColon_pair {a b : Char} (ha : a ≠ ':') (hb : b ≠ ':') :
    splitOnColon [a, b] = [[a, b]] := by
  simp [splitOnColon, ha, hb]

theorem splitOnColon_pair_colon {a b : Char} {rest : List Char}
    (ha : a ≠ ':') (hb : b ≠ ':') :
    splitOnColon (a :: b :: ':' :: rest) = [a, b] :: splitOnColon rest := by
  obtain ⟨q, qs, hq⟩ : ∃ q qs, splitOnColon rest = q :: qs := by
    cases h : splitOnColon rest with
    | nil => exact absurd h (splitOnColon_ne_nil rest)
    | cons q qs => exact ⟨q, qs, rfl⟩
  simp [splitOnColon, ha, hb, hq]

/-! ### Hex digit lemmas -/

theorem hexVal?_hexDigitUpper {d : Nat} (h : d < 16) :
    hexVal? (hexDigitUpper d) = some d := by
  interval_cases d <;> decide

theorem hexVal?_lowerHexDigit {d : Nat} (h : d < 16) :
    hexVal? (lowerHexDigit d) = some d := by
  interval_cases d <;> decide

theorem hexDigitUpper_ne_colon {d : Nat} (h : d < 16) : hexDigitUpper d ≠ ':' := by
  interval_cases d <;> decide

theorem hexDigitUpper_ne_plus {d : Nat} (h : d < 16) : hexDigitUpper d ≠ '+' := by
  interval_cases d <;> decide

theorem lowerHexDigit_ne_colon {d : Nat} (h : d < 16) : lowerHexDigit d ≠ ':' := by
  interval_cases d <;> decide

theorem lowerHexDigit_ne_plus {d : Nat} (h : d < 16) : lowerHexDigit d ≠ '+' := by
  interval_cases d <;> decide

theorem isUpperHexDigit_hexDigitUpper {d : Nat} (h : d < 16) :
    isUpperHexDigit (hexDigitUpper d) = true := by
  interval_cases d <;> decide

/-- Every uppercase hex digit character parses to a value below 16 and is
re-rendered by `hexDigitUpper` to itself. -/
theorem upperHex_char_complete {c : Char} (h : isUpperHexDigit c = true) :
    ∃ d, d < 16 ∧ hexVal? c = some d ∧ hexDigitUpper d = c := by
  simp only [isUpperHexDigit, Bool.or_eq_true, Bool.and_eq_true,
    decide_eq_true_eq] at h
  rcases h with ⟨h1, h2⟩ | ⟨h1, h2⟩
  · refine ⟨c.toNat - 48, by omega, ?_, ?_⟩
    · rw [hexVal?, if_pos ⟨h1, h2⟩]
    · rw [hexDigitUpper, if_pos (by omega),
        show 48 + (c.toNat - 48) = c.toNat from by omega, Char.ofNat_toNat]
  · refine ⟨c.toNat - 55, by omega, ?_, ?_⟩
    · rw [hexVal?, if_neg (by omega), if_pos ⟨h1, h2⟩]
    · rw [hexDigitUpper, if_neg (by omega),
        show 55 + (c.toNat - 55) = c.toNat from by omega, Char.ofNat_toNat]

theorem isUpperHexDigit_ne_colon {c : Char} (h : isUpperHexDigit c = true) :
    c ≠ ':' := by
  intro hc; subst hc; simp [isUpperHexDigit] at h

theorem isUpperHexDigit_ne_plus {c : Char} (h : isUpperHexDigit c = true) :
    c ≠ '+' := by
  intro hc; subst hc; simp [isUpperHexDigit] at h

/-! ### Byte-level parse lemmas -/

theorem foldHexDigits_pair {c1 c2 : Char} {d1 d2 : Nat}
    (h1 : hexVal? c1 = some d1) (h2 : hexVal? c2 = some d2)
    (hd1 : d1 < 16) (hd2 : d2 < 16) :
    foldHexDigits [c1, c2] = some (d1 * 16 + d2) := by
  simp only [foldHexDigits, List.foldlM, h1, h2, Option.bind_eq_bind,
    Option.some_bind]
  rw [if_pos (show 0 * 16 + d1 < 256 by omega)]
  simp only [Option.some_bind]
  rw [if_pos (show (0 * 16 + d1) * 16 + d2 < 256 by omega)]
  simp only [Option.some_bind, Option.pure_def]
  congr 1
  omega

theorem parseMacPart_pair {i : Nat} {c1 c2 : Char} {d1 d2 : Nat}
    (h1 : hexVal? c1 = some d1) (h2 : hexVal? c2 = some d2)
    (hd1 : d1 < 16) (hd2 : d2 < 16) (hplus : c1 ≠ '+') :
    parseMacPart i [c1, c2] = .ok ⟨d1 * 16 + d2, by omega⟩ := by
  unfold parseMacPart
  rw [if_neg (by simp)]
  have hpb : parseHexByteNat [c1, c2] = foldHexDigits [c1, c2] := by
    simp [parseHexByteNat, hplus]
  rw [hpb, foldHexDigits_pair h1 h2 hd1 hd2]
  exact dif_pos (by omega)

/-- A canonical (two uppercase hex digits) part parses to a byte whose
uppercase re-rendering is the part itself. -/
theorem parseMacPart_canonical {i : Nat} {p : List Char}
    (hlen : p.length = 2) (hhex : p.all isUpperHexDigit = true) :
    ∃ b : Fin 256, parseMacPart i p = .ok b ∧
      [hexDigitUpper (b.val / 16), hexDigitUpper (b.val % 16)] = p := by
  obtain ⟨c1, c2, rfl⟩ := List.length_eq_two.mp hlen
  simp only [List.all_cons, List.all_nil, Bool.and_eq_true, Bool.and_true]
    at hhex
  obtain ⟨d1, hd1, hv1, hr1⟩ := upperHex_char_complete hhex.1
  obtain ⟨d2, hd2, hv2, hr2⟩ := upperHex_char_complete hhex.2
  refine ⟨⟨d1 * 16 + d2, by omega⟩,
    parseMacPart_pair hv1 hv2 hd1 hd2 (isUpperHexDigit_ne_plus hhex.1), ?_⟩
  have e1 : (d1 * 16 + d2) / 16 = d1 := by omega
  have e2 : (d1 * 16 + d2) % 16 = d2 := by omega
  rw [e1, e2, hr1, hr2]

/-- Parsing the colon-joined two-digit rendering of six bytes (in any hex
digit alphabet accepted by `hexVal?`) recovers the bytes. -/
theorem fromStr_render_digits (f : Nat → Char)
    (hv : ∀ d, d < 16 → hexVal? (f d) = some d)
    (hcol : ∀ d, d < 16 → f d ≠ ':')
    (hplus : ∀ d, d < 16 → f d ≠ '+')
    (m : MacAddress) :
    MacAddress.fromStr
      [f (m.b0.val / 16), f (m.b0.val % 16), ':',
       f (m.b1.val / 16), f (m.b1.val % 16), ':',
       f (m.b2.val / 16), f (m.b2.val % 16), ':',
       f (m.b3.val / 16), f (m.b3.val % 16), ':',
       f (m.b4.val / 16), f (m.b4.val % 16), ':',
       f (m.b5.val / 16), f (m.b5.val % 16)] = .ok m := by
  obtain ⟨b0, b1, b2, b3, b4, b5⟩ := m
  have hd : ∀ (b : Fin 256), b.val / 16 < 16 := fun b => by
    have := b.isLt; omega
  have hm : ∀ (b : Fin 256), b.val % 16 < 16 := fun b => by omega
  have hsplit :
      splitOnColon
        [f (b0.val / 16), f (b0.val % 16), ':',
         f (b1.val / 16), f (b1.val % 16), ':',
         f (b2.val / 16), f (b2.val % 16), ':',
         f (b3.val / 16), f (b3.val % 16), ':',
         f (b4.val / 16), f (b4.val % 16), ':',
         f (b5.val / 16), f (b5.val % 16)] =
      [[f (b0.val / 16), f (b0.val % 16)],
       [f (b1.val / 16), f (b1.val % 16)],
       [f (b2.val / 16), f (b2.val % 16)],
       [f (b3.val / 16), f (b3.val % 16)],
       [f (b4.val / 16), f (b4.val % 16)],
       [f (b5.val / 16), f (b5.val % 16)]] := by
    rw [splitOnColon_pair_colon (hcol _ (hd b0)) (hcol _ (hm b0)),
      splitOnColon_pair_colon (hcol _ (hd b1)) (hcol _ (hm b1)),
      splitOnColon_pair_colon (hcol _ (hd b2)) (hcol _ (hm b2)),
      splitOnColon_pair_colon (hcol _ (hd b3)) (hcol _ (hm b3)),
      splitOnColon_pair_colon (hcol _ (hd b4)) (hcol _ (hm b4)),
      splitOnColon_pair (hcol _ (hd b5)) (hcol _ (hm b5))]
  unfold MacAddress.fromStr
  rw [hsplit]
  have hpart : ∀ (i : Nat) (b : Fin 256),
      parseMacPart i [f (b.val / 16), f (b.val % 16)] = .ok b := by
    intro i b
    rw [parseMacPart_pair (hv _ (hd b)) (hv _ (hm b)) (hd b) (hm b)
      (hplus _ (hd b))]
    congr 1
    refine Fin.ext ?_
    show b.val / 16 * 16 + b.val % 16 = b.val
    omega
  simp only [hpart]
  rfl

/-- A string in canonical form parses successfully, to a value whose
rendering is the original string. -/
theorem fromStr_of_canonical {s : List Char} (hs : isCanonicalMac s = true) :
    ∃ m, MacAddress.fromStr s = .ok m ∧ macRender m = s := by
  simp only [isCanonicalMac, Bool.and_eq_true, beq_iff_eq, List.all_eq_true]
    at hs
  obtain ⟨hlen, hall⟩ := hs
  obtain ⟨p0, p1, p2, p3, p4, p5, hsp⟩ :
      ∃ p0 p1 p2 p3 p4 p5,
        splitOnColon s = [p0, p1, p2, p3, p4, p5] := by
    rcases h : splitOnColon s with _ | ⟨p0, _ | ⟨p1, _ | ⟨p2, _ | ⟨p3,
      _ | ⟨p4, _ | ⟨p5, _ | ⟨p6, t⟩⟩⟩⟩⟩⟩⟩
    · rw [h] at hlen; simp at hlen
    · rw [h] at hlen; simp at hlen
    · rw [h] at hlen; simp at hlen
    · rw [h] at hlen; simp at hlen
    · rw [h] at hlen; simp at hlen
    · rw [h] at hlen; simp at hlen
    · exact ⟨p0, p1, p2, p3, p4, p5, rfl⟩
    · rw [h] at hlen
      simp only [List.length_cons] at hlen
      omega
  have hpart : ∀ p ∈ splitOnColon s,
      p.length = 2 ∧ p.all isUpperHexDigit = true := by
    intro p hp
    have h2 := hall p hp
    simp only [Bool.and_eq_true, beq_iff_eq, List.all_eq_true] at h2
    exact ⟨h2.1, List.all_eq_true.mpr h2.2⟩
  rw [hsp] at hpart
  obtain ⟨b0, hok0, hr0⟩ := parseMacPart_canonical (i := 0)
    (hpart p0 (by simp)).1 (hpart p0 (by simp)).2
  obtain ⟨b1, hok1, hr1⟩ := parseMacPart_canonical (i := 1)
    (hpart p1 (by simp)).1 (hpart p1 (by simp)).2
  obtain ⟨b2, hok2, hr2⟩ := parseMacPart_canonical (i := 2)
    (hpart p2 (by simp)).1 (hpart p2 (by simp)).2
  obtain ⟨b3, hok3, hr3⟩ := parseMacPart_canonical (i := 3)
    (hpart p3 (by simp)).1 (hpart p3 (by simp)).2
  obtain ⟨b4, hok4, hr4⟩ := parseMacPart_canonical (i := 4)
    (hpart p4 (by simp)).1 (hpart p4 (by simp)).2
  obtain ⟨b5, hok5, hr5⟩ := parseMacPart_canonical (i := 5)
    (hpart p5 (by simp)).1 (hpart p5 (by simp)).2
  refine ⟨⟨b0, b1, b2, b3, b4, b5⟩, ?_, ?_⟩
  · unfold MacAddress.fromStr
    rw [hsp]
    simp only [hok0, hok1, hok2, hok3, hok4, hok5]
    rfl
  · have hjoin := joinColon_splitOnColon s
    rw [hsp] at hjoin
    rw [← hjoin, ← hr0, ← hr1, ← hr2, ← hr3, ← hr4, ← hr5]
    rfl

/-- **C8**: device-identifier parsing and rendering round-trip.  Every
string in canonical six-group colon-separated uppercase-hex form parses,
and rendering the parsed value returns the identical string; parsing the
rendering of any 6-byte value returns that value; and the lowercase
rendering also parses back to the same bytes. -/
theorem mac_parse_render_roundtrip :
    (∀ s : List Char, isCanonicalMac s = true →
      ∃ m, MacAddress.fromStr s = .ok m ∧ macRender m = s) ∧
    (∀ m : MacAddress, MacAddress.fromStr (macRender m) = .ok m) ∧
    (∀ m : MacAddress, MacAddress.fromStr (macRenderLower m) = .ok m) := by
  refine ⟨fun s hs => fromStr_of_canonical hs, fun m => ?_, fun m => ?_⟩
  · exact fromStr_render_digits hexDigitUpper
      (fun d hd => hexVal?_hexDigitUpper hd)
      (fun d hd => hexDigitUpper_ne_colon hd)
      (fun d hd => hexDigitUpper_ne_plus hd) m
  · exact fromStr_render_digits lowerHexDigit
      (fun d hd => hexVal?_lowerHexDigit hd)
      (fun d hd => lowerHexDigit_ne_colon hd)
      (fun d hd => lowerHexDigit_ne_plus hd) m

/-- Witness for C8: the canonical string `"A0:B1:C2:D3:E4:F5"` and the
6-byte value it denotes round-trip in both directions, and the lowercase
spelling parses to the same bytes. -/
theorem mac_parse_render_roundtrip_witness :
    (∃ m, MacAddress.fromStr
        ['A', '0', ':', 'B', '1', ':', 'C', '2', ':', 'D', '3', ':',
         'E', '4', ':', 'F', '5'] = .ok m ∧
      macRender m =
        ['A', '0', ':', 'B', '1', ':', 'C', '2', ':', 'D', '3', ':',
         'E', '4', ':', 'F', '5']) ∧
    MacAddress.fromStr (macRender ⟨160, 177, 194, 211, 228, 245⟩) =
      .ok ⟨160, 177, 194, 211, 228, 245⟩ ∧
    MacAddress.fromStr (macRenderLower ⟨160, 177, 194, 211, 228, 245⟩) =
      .ok ⟨160, 177, 194, 211, 228, 245⟩ := by
  refine ⟨mac_parse_render_roundtrip.1 _ (by decide), ?_, ?_⟩
  · exact mac_parse_render_roundtrip.2.1 _
  · exact mac_parse_render_roundtrip.2.2 _

/-! ## Measurement and decoding (`src/measurement.rs`, `src/scanner/mod.rs`)

The `ruuvi_decoders` crate's `v5::decode` / `v6::decode` are external to
the repository; they appear here as oracle functions returning either a
decoded tag record or a debug-rendered error string.  `SystemTime::now()`
is the explicit `now : Int` argument (nanoseconds since the Unix epoch). -/

/-- The fields of `Measurement` as constructed by `decode_v5_measurement`
and `decode_v6_measurement` and consumed by the formatter. -/
structure Measurement where
  mac : MacAddress
  timestamp : Int
  temperature : Option ℚ
  humidity : Option ℚ
  pressure : Option ℚ
  battery : Option ℚ
  tx_power : Option Int
  movement_counter : Option Nat
  measurement_sequence : Option Nat
  acceleration : Option (ℚ × ℚ × ℚ)
  pm2_5 : Option ℚ
  co2 : Option ℚ
  voc_index : Option ℚ
  nox_index : Option ℚ
  luminosity : Option ℚ
deriving DecidableEq

/-- `DecodeError` -/
inductive DecodeError where
  | unsupportedFormat (msg : List Char)
  | invalidData (msg : List Char)
  | decoderError (msg : List Char)
deriving DecidableEq

/-- The fields of the `ruuvi_decoders` v5 tag used by the repository:
temperature (°C), humidity (%), pressure (Pa), per-axis acceleration
(milli-g, `i16`), battery voltage (mV, `u16`), tx power (dBm, `i8`),
movement counter (`u8`), measurement sequence (`u16`). -/
structure V5Tag where
  temperature : Option ℚ
  humidity : Option ℚ
  pressure : Option ℚ
  acceleration_x : Option Int
  acceleration_y : Option Int
  acceleration_z : Option Int
  battery_voltage : Option Nat
  tx_power : Option Int
  movement_counter : Option Nat
  measurement_sequence : Option Nat

/-- The fields of the `ruuvi_decoders` v6 tag used by the repository:
temperature (°C), humidity (%), pressure (hPa), PM2.5 (µg/m³), CO₂ (ppm,
`u16`), VOC index (`u16`), NOx index (`u16`), luminosity (lux),
measurement sequence (`u16`). -/
structure V6Tag where
  temperature : Option ℚ
  humidity : Option ℚ
  pressure : Option ℚ
  pm2_5 : Option ℚ
  co2 : Option Nat
  voc_index : Option Nat
  nox_index : Option Nat
  luminosity : Option ℚ
  measurement_sequence : Option Nat

/-- `decode_v5_measurement`, parameterised by the external `v5::decode`. -/
def decode_v5_measurement (v5decode : List Nat → Except (List Char) V5Tag)
    (mac : MacAddress) (now : Int) (data : List Nat) :
    Except DecodeError Measurement :=
  match v5decode data with
  | .ok tag =>
    let battery_potential := tag.battery_voltage.map (fun v => (v : ℚ) / 1000)
    let acceleration :=
      match tag.acceleration_x, tag.acceleration_y, tag.acceleration_z with
      | some x, some y, some z =>
        some ((x : ℚ) / 1000, (y : ℚ) / 1000, (z : ℚ) / 1000)
      | _, _, _ => none
    .ok
      { mac := mac
        timestamp := now
        temperature := tag.temperature
        humidity := tag.humidity
        pressure := tag.pressure
        battery := battery_potential
        tx_power := tag.tx_power
        movement_counter := tag.movement_counter
        measurement_sequence := tag.measurement_sequence
        acceleration := acceleration
        pm2_5 := none
        co2 := none
        voc_index := none
        nox_index := none
        luminosity := none }
  | .error e =>
    .error (.decoderError ("Failed to decode RuuviTag data: ".data ++ e))

/-- `decode_v6_measurement`, parameterised by the external `v6::decode`.
The decoder reports pressure in hPa, stored ×100 as Pa. -/
def decode_v6_measurement (v6decode : List Nat → Except (List Char) V6Tag)
    (mac : MacAddress) (now : Int) (data : List Nat) :
    Except DecodeError Measurement :=
  match v6decode data with
  | .ok tag =>
    .ok
      { mac := mac
        timestamp := now
        temperature := tag.temperature
        humidity := tag.humidity
        pressure := tag.pressure.map (fun hpa => hpa * 100)
        battery := none
        tx_power := none
        movement_counter := none
        measurement_sequence := tag.measurement_sequence
        acceleration := none
        pm2_5 := tag.pm2_5
        co2 := tag.co2.map (fun v => (v : ℚ))
        voc_index := tag.voc_index.map (fun v => (v : ℚ))
        nox_index := tag.nox_index.map (fun v => (v : ℚ))
        luminosity := tag.luminosity }
  | .error e =>
    .error (.decoderError ("Failed to decode RuuviTag data: ".data ++ e))

/-- `decode_ruuvi_data`: empty payloads are invalid; the first byte selects
format 5 or 6; any other first byte is an unsupported format named in the
error message. -/
def decode_ruuvi_data (v5decode : List Nat → Except (List Char) V5Tag)
    (v6decode : List Nat → Except (List Char) V6Tag)
    (mac : MacAddress) (now : Int) (data : List Nat) :
    Except DecodeError Measurement :=
  match data with
  | [] => .error (.invalidData "Empty data".data)
  | b :: _ =>
    if b = 5 then decode_v5_measurement v5decode mac now data
    else if b = 6 then decode_v6_measurement v6decode mac now data
    else
      .error (.unsupportedFormat
        ("RuuviTag data format ".data ++ natChars b ++
          " (only V5 and V6 supported)".data))

/-- **C3**: for every input, `decode_ruuvi_data` returns an error (it is a
total function, so it never panics) when the payload is not a decodable
format-5/format-6 payload: an empty payload gives the invalid-data
variant; a first byte other than 5 or 6 gives the unsupported-format
variant whose message names that byte value; a recognized first byte whose
structural decode fails gives the decoder-internal variant wrapping the
underlying diagnostic. -/
theorem decode_ruuvi_data_errors
    (v5d : List Nat → Except (List Char) V5Tag)
    (v6d : List Nat → Except (List Char) V6Tag)
    (mac : MacAddress) (now : Int) (data : List Nat) :
    (data = [] →
      decode_ruuvi_data v5d v6d mac now data =
        .error (.invalidData "Empty data".data)) ∧
    (∀ b rest, data = b :: rest → b ≠ 5 → b ≠ 6 →
      decode_ruuvi_data v5d v6d mac now data =
        .error (.unsupportedFormat
          ("RuuviTag data format ".data ++ natChars b ++
            " (only V5 and V6 supported)".data))) ∧
    (∀ rest e, data = 5 :: rest → v5d data = .error e →
      decode_ruuvi_data v5d v6d mac now data =
        .error (.decoderError
          ("Failed to decode RuuviTag data: ".data ++ e))) ∧
    (∀ rest e, data = 6 :: rest → v6d data = .error e →
      decode_ruuvi_data v5d v6d mac now data =
        .error (.decoderError
          ("Failed to decode RuuviTag data: ".data ++ e))) := by
  refine ⟨?_, ?_, ?_, ?_⟩
  · intro h; subst h; rfl
  · intro b rest h h5 h6
    subst h
    simp only [decode_ruuvi_data, if_neg h5, if_neg h6]
  · intro rest e h hfail
    subst h
    simp only [decode_ruuvi_data]
    norm_num [decode_v5_measurement, hfail]
  · intro rest e h hfail
    subst h
    simp only [decode_ruuvi_data]
    norm_num [decode_v6_measurement, hfail]

/-- Witness for C3: the empty payload, a `[7, 1, 2]` payload, and failing
v5/v6 decoders on recognized first bytes, all at concrete inputs. -/
theorem decode_ruuvi_data_errors_witness :
    decode_ruuvi_data (fun _ => .error ['x']) (fun _ => .error ['y'])
        ⟨0, 0, 0, 0, 0, 0⟩ 0 [] =
      .error (.invalidData "Empty data".data) ∧
    decode_ruuvi_data (fun _ => .error ['x']) (fun _ => .error ['y'])
        ⟨0, 0, 0, 0, 0, 0⟩ 0 [7, 1, 2] =
      .error (.unsupportedFormat
        "RuuviTag data format 7 (only V5 and V6 supported)".data) ∧
    decode_ruuvi_data (fun _ => .error ['x']) (fun _ => .error ['y'])
        ⟨0, 0, 0, 0, 0, 0⟩ 0 [5, 1] =
      .error (.decoderError ("Failed to decode RuuviTag data: ".data ++ ['x'])) ∧
    decode_ruuvi_data (fun _ => .error ['x']) (fun _ => .error ['y'])
        ⟨0, 0, 0, 0, 0, 0⟩ 0 [6, 1] =
      .error (.decoderError ("Failed to decode RuuviTag data: ".data ++ ['y'])) := by
  have h := decode_ruuvi_data_errors (fun _ => .error ['x'])
    (fun _ => .error ['y']) ⟨0, 0, 0, 0, 0, 0⟩ 0
  refine ⟨(h []).1 rfl, ?_, ?_, ?_⟩
  · rw [(h [7, 1, 2]).2.1 7 [1, 2] rfl (by decide) (by decide)]
    exact congrArg Except.error (by decide)
  · exact (h [5, 1]).2.2.1 [1] ['x'] rfl rfl
  · exact (h [6, 1]).2.2.2 [1] ['y'] rfl rfl

/-- **C7**: every format-6 payload accepted by the v6 decoder produces a
`Measurement` with acceleration, battery and tx-power absent, pressure
equal to the reported hectopascal value times 100 (Pa), and the format-6
quantities carried exactly as reported. -/
theorem decode_v6_measurement_fields
    (v5d : List Nat → Except (List Char) V5Tag)
    (v6d : List Nat → Except (List Char) V6Tag)
    (mac : MacAddress) (now : Int) (data : List Nat) (tag : V6Tag)
    (h6 : data.head? = some 6) (hok : v6d data = .ok tag) :
    ∃ m, decode_ruuvi_data v5d v6d mac now data = .ok m ∧
      m.acceleration = none ∧ m.battery = none ∧ m.tx_power = none ∧
      m.movement_counter = none ∧
      m.temperature = tag.temperature ∧ m.humidity = tag.humidity ∧
      m.pressure = tag.pressure.map (fun hpa => hpa * 100) ∧
      m.pm2_5 = tag.pm2_5 ∧
      m.co2 = tag.co2.map (fun v => (v : ℚ)) ∧
      m.voc_index = tag.voc_index.map (fun v => (v : ℚ)) ∧
      m.nox_index = tag.nox_index.map (fun v => (v : ℚ)) ∧
      m.luminosity = tag.luminosity ∧
      m.measurement_sequence = tag.measurement_sequence := by
  obtain ⟨rest, rfl⟩ : ∃ rest, data = 6 :: rest := by
    cases data with
    | nil => simp at h6
    | cons b rest =>
      simp only [List.head?] at h6
      exact ⟨rest, by rw [Option.some.injEq] at h6; rw [h6]⟩
  refine ⟨⟨mac, now, tag.temperature, tag.humidity,
    tag.pressure.map (fun hpa => hpa * 100), none, none, none,
    tag.measurement_sequence, none, tag.pm2_5,
    tag.co2.map (fun v => (v : ℚ)), tag.voc_index.map (fun v => (v : ℚ)),
    tag.nox_index.map (fun v => (v : ℚ)), tag.luminosity⟩,
    ?_, rfl, rfl, rfl, rfl, rfl, rfl, rfl, rfl, rfl, rfl, rfl, rfl, rfl⟩
  simp only [decode_ruuvi_data]
  norm_num [decode_v6_measurement, hok]

/-- Witness for C7: a concrete accepting v6 decoder on payload `[6]`. -/
theorem decode_v6_measurement_fields_witness :
    ∃ m, decode_ruuvi_data (fun _ => .error ['x'])
        (fun _ => .ok ⟨some 1, some 2, some 3, some 4, some 5, some 6,
          some 7, some 8, some 9⟩)
        ⟨0, 0, 0, 0, 0, 0⟩ 0 [6] = .ok m ∧
      m.acceleration = none ∧ m.battery = none ∧ m.tx_power = none ∧
      m.movement_counter = none ∧
      m.temperature = some 1 ∧ m.humidity = some 2 ∧
      m.pressure = some 300 ∧ m.pm2_5 = some 4 ∧ m.co2 = some 5 ∧
      m.voc_index = some 6 ∧ m.nox_index = some 7 ∧ m.luminosity = some 8 ∧
      m.measurement_sequence = some 9 := by
  obtain ⟨m, hm, h1, h2, h3, h4, h5, h6, h7, h8, h9, h10, h11, h12, h13⟩ :=
    decode_v6_measurement_fields (fun _ => .error ['x'])
      (fun _ => .ok ⟨some 1, some 2, some 3, some 4, some 5, some 6,
        some 7, some 8, some 9⟩)
      ⟨0, 0, 0, 0, 0, 0⟩ 0 [6]
      ⟨some 1, some 2, some 3, some 4, some 5, some 6, some 7, some 8,
        some 9⟩ rfl rfl
  refine ⟨m, hm, h1, h2, h3, h4, h5, h6, ?_, h8, ?_, ?_, ?_, h12, h13⟩
  · rw [h7]; norm_num
  · rw [h9]; norm_num
  · rw [h10]; norm_num
  · rw [h11]; norm_num

/-! ## InfluxDB line-protocol formatter (`src/output/influxdb.rs`)

Buffers are `List Char`; `write!` appends.  The textual rendering of an
`f64` field value is the parameter `showNum`; integer timestamps render
through `natChars`. -/

/-- `InfluxDbFormatter::needs_measurement_escape` -/
def needsMeasurementEscape (s : List Char) : Bool :=
  s.any (fun c => c == ',' || c == ' ')

/-- `InfluxDbFormatter::needs_tag_escape` -/
def needsTagEscape (s : List Char) : Bool :=
  s.any (fun c => c == ',' || c == '=' || c == ' ')

/-- The slow path of `write_measurement_name`: escape `','` and `' '`. -/
def escapeMeasurementSlow (s : List Char) : List Char :=
  s.flatMap fun c =>
    if c = ',' then ['\\', ','] else if c = ' ' then ['\\', ' '] else [c]

/-- The slow path of `write_tag_value`: escape `','`, `'='` and `' '`. -/
def escapeTagSlow (s : List Char) : List Char :=
  s.flatMap fun c =>
    if c = ',' then ['\\', ',']
    else if c = '=' then ['\\', '=']
    else if c = ' ' then ['\\', ' ']
    else [c]

/-- `InfluxDbFormatter::write_measurement_name` -/
def write_measurement_name (buf s : List Char) (needs_escape : Bool) :
    List Char :=
  if needs_escape then buf ++ escapeMeasurementSlow s else buf ++ s

/-- `InfluxDbFormatter::write_tag_value` -/
def write_tag_value (buf s : List Char) : List Char :=
  if needsTagEscape s then buf ++ escapeTagSlow s else buf ++ s

/-- `InfluxDbFormatter::write_tags`: the mac tag is written with plain
`write!` (no escaping); the name tag goes through `write_tag_value`. -/
def write_tags (buf : List Char) (m : Measurement) (name : List Char) :
    List Char :=
  write_tag_value ((buf ++ ",mac=".data ++ macRender m.mac) ++ ",name=".data)
    name

/-- One expansion of the `write_field!` macro: append `,`-separator (unless
first), `name=value`, and clear the first-field flag; absent values leave
the state alone. -/
def writeFieldStep (showNum : ℚ → List Char) (st : List Char × Bool)
    (entry : List Char × Option ℚ) : List Char × Bool :=
  match entry.2 with
  | some v =>
    ((st.1 ++ (if st.2 then [] else [','])) ++ entry.1 ++ '=' :: showNum v,
      false)
  | none => st

/-- The twelve scalar fields written by `write_fields`, in source order,
with the `Pa → kPa` conversion on pressure and the `f64::from` casts. -/
def fieldEntries (m : Measurement) : List (List Char × Option ℚ) :=
  [("temperature".data, m.temperature),
   ("humidity".data, m.humidity),
   ("pressure".data, m.pressure.map (fun p => p / 1000)),
   ("battery_potential".data, m.battery),
   ("tx_power".data, m.tx_power.map (fun v => (v : ℚ))),
   ("movement_counter".data, m.movement_counter.map (fun v => (v : ℚ))),
   ("measurement_sequence_number".data,
     m.measurement_sequence.map (fun v => (v : ℚ))),
   ("pm2_5".data, m.pm2_5),
   ("co2".data, m.co2),
   ("voc_index".data, m.voc_index),
   ("nox_index".data, m.nox_index),
   ("luminosity".data, m.luminosity)]

/-- `InfluxDbFormatter::write_fields`: the twelve scalar fields, then the
acceleration triple written as three comma-joined pairs. -/
def write_fields (showNum : ℚ → List Char) (buf : List Char)
    (m : Measurement) : List Char :=
  let st := (fieldEntries m).foldl (writeFieldStep showNum) (buf, true)
  match m.acceleration with
  | some (x, y, z) =>
    (st.1 ++ (if st.2 then [] else [','])) ++
      "acceleration_x=".data ++ showNum x ++
      ",acceleration_y=".data ++ showNum y ++
      ",acceleration_z=".data ++ showNum z
  | none => st.1

/-- `duration_since(UNIX_EPOCH).map(as_nanos).unwrap_or(0)`: nanoseconds
clamped to zero for pre-epoch timestamps. -/
def clampNanos (t : Int) : Nat := t.toNat

/-- `InfluxDbFormatter::write_timestamp` -/
def write_timestamp (buf : List Char) (ts : Int) : List Char :=
  buf ++ ' ' :: natChars (clampNanos ts)

/-- `InfluxDbFormatter` (the `needs_measurement_escape` flag is
precomputed by `new`). -/
structure InfluxDbFormatter where
  measurement_name : List Char
  needs_measurement_escape : Bool

/-- `InfluxDbFormatter::new` -/
def InfluxDbFormatter.new (name : List Char) : InfluxDbFormatter :=
  ⟨name, needsMeasurementEscape name⟩

/-- `InfluxDbFormatter::format` -/
def InfluxDbFormatter.format (showNum : ℚ → List Char)
    (f : InfluxDbFormatter) (m : Measurement) (name : List Char) :
    List Char :=
  let buf : List Char := []
  let buf := write_measurement_name buf f.measurement_name
    f.needs_measurement_escape
  let buf := write_tags buf m name
  let buf := buf ++ [' ']
  let buf := write_fields showNum buf m
  write_timestamp buf m.timestamp

/-! ### Spec-side escaping and line shape -/

/-- The spec's series-name escaping: precede each literal comma and space
with a backslash, leave every other character unchanged. -/
def specEscapeName (s : List Char) : List Char :=
  s.flatMap fun c => if c = ',' ∨ c = ' ' then ['\\', c] else [c]

/-- The spec's tag-value escaping: precede each literal comma, space and
equals sign with a backslash, leave every other character unchanged. -/
def specEscapeTag (s : List Char) : List Char :=
  s.flatMap fun c => if c = ',' ∨ c = ' ' ∨ c = '=' then ['\\', c] else [c]

/-- Comma-joining of rendered `field=value` pairs. -/
def joinComma : List (List Char) → List Char
  | [] => []
  | [p] => p
  | p :: q :: ps => p ++ ',' :: joinComma (q :: ps)

/-- `,p₁,p₂,…` — the shape of pairs appended after a first pair. -/
def joinCommaTail : List (List Char) → List Char
  | [] => []
  | p :: ps => ',' :: (p ++ joinCommaTail ps)

/-- The rendered `field=value` strings of exactly the non-absent fields, in
declared order, acceleration last. -/
def specFields (showNum : ℚ → List Char) (m : Measurement) :
    List (List Char) :=
  ((fieldEntries m).filterMap fun e =>
    e.2.map fun v => e.1 ++ '=' :: showNum v) ++
  (match m.acceleration with
   | some (x, y, z) =>
     ["acceleration_x=".data ++ showNum x,
      "acceleration_y=".data ++ showNum y,
      "acceleration_z=".data ++ showNum z]
   | none => [])

/-- The line shape stated by the spec: escaped series name, verbatim mac
tag, escaped name tag, one space, comma-joined fields, one space, integer
nanosecond timestamp clamped at the epoch. -/
def specLine (showNum : ℚ → List Char) (series : List Char)
    (m : Measurement) (name : List Char) : List Char :=
  specEscapeName series ++ ",mac=".data ++ macRender m.mac ++
    ",name=".data ++ specEscapeTag name ++
    ' ' :: (joinComma (specFields showNum m) ++
      ' ' :: natChars (clampNanos m.timestamp))

/-- Every optional reading of the `Measurement` is absent. -/
def Measurement.allAbsent (m : Measurement) : Prop :=
  m.temperature = none ∧ m.humidity = none ∧ m.pressure = none ∧
  m.battery = none ∧ m.tx_power = none ∧ m.movement_counter = none ∧
  m.measurement_sequence = none ∧ m.acceleration = none ∧
  m.pm2_5 = none ∧ m.co2 = none ∧ m.voc_index = none ∧
  m.nox_index = none ∧ m.luminosity = none

/-! ### Escaping lemmas -/

theorem escapeMeasurementSlow_eq_spec (s : List Char) :
    escapeMeasurementSlow s = specEscapeName s := by
  unfold escapeMeasurementSlow specEscapeName
  refine List.flatMap_congr ?_
  intro c _
  by_cases h1 : c = ','
  · subst h1; simp
  · by_cases h2 : c = ' '
    · subst h2; simp
    · simp [h1, h2]

theorem escapeTagSlow_eq_spec (s : List Char) :
    escapeTagSlow s = specEscapeTag s := by
  unfold escapeTagSlow specEscapeTag
  refine List.flatMap_congr ?_
  intro c _
  by_cases h1 : c = ','
  · subst h1; simp
  · by_cases h2 : c = '='
    · subst h2; simp
    · by_cases h3 : c = ' '
      · subst h3; simp [h1, h2]
      · simp [h1, h2, h3]

theorem specEscapeName_of_clean {s : List Char}
    (h : needsMeasurementEscape s = false) : specEscapeName s = s := by
  unfold needsMeasurementEscape at h
  unfold specEscapeName
  induction s with
  | nil => rfl
  | cons c rest ih =>
    simp only [List.any_cons, Bool.or_eq_false_iff, Bool.or_eq_false_iff,
      beq_eq_false_iff_ne, ne_eq] at h
    simp only [List.flatMap_cons]
    rw [if_neg (by tauto)]
    simp only [List.singleton_append, List.cons.injEq, true_and]
    exact ih (by simpa [List.any_eq_false] using h.2)

theorem specEscapeTag_of_clean {s : List Char}
    (h : needsTagEscape s = false) : specEscapeTag s = s := by
  unfold needsTagEscape at h
  unfold specEscapeTag
  induction s with
  | nil => rfl
  | cons c rest ih =>
    simp only [List.any_cons, Bool.or_eq_false_iff, Bool.or_eq_false_iff,
      beq_eq_false_iff_ne, ne_eq] at h
    simp only [List.flatMap_cons]
    rw [if_neg (by tauto)]
    simp only [List.singleton_append, List.cons.injEq, true_and]
    exact ih (by simpa [List.any_eq_false] using h.2)

theorem write_measurement_name_eq_spec (buf s : List Char) :
    write_measurement_name buf s (needsMeasurementEscape s) =
      buf ++ specEscapeName s := by
  unfold write_measurement_name
  cases h : needsMeasurementEscape s with
  | true => rw [if_pos rfl, escapeMeasurementSlow_eq_spec]
  | false => rw [if_neg (by simp), specEscapeName_of_clean h]

theorem write_tag_value_eq_spec (buf s : List Char) :
    write_tag_value buf s = buf ++ specEscapeTag s := by
  unfold write_tag_value
  cases h : needsTagEscape s with
  | true => rw [if_pos rfl, escapeTagSlow_eq_spec]
  | false => rw [if_neg (by simp), specEscapeTag_of_clean h]

/-! ### Field-fold lemmas -/

theorem joinComma_cons (p : List Char) (ps : List (List Char)) :
    joinComma (p :: ps) = p ++ joinCommaTail ps := by
  induction ps generalizing p with
  | nil => simp [joinComma, joinCommaTail]
  | cons q qs ih =>
    simp only [joinComma, joinCommaTail]
    rw [ih q]

theorem joinCommaTail_append (xs ys : List (List Char)) :
    joinCommaTail (xs ++ ys) = joinCommaTail xs ++ joinCommaTail ys := by
  induction xs with
  | nil => simp [joinCommaTail]
  | cons x xs ih => simp [joinCommaTail, ih]

/-- Folding the per-field writer over a list of entries appends exactly the
comma-joined renderings of the present entries; the first-field flag ends
up recording whether none were present. -/
theorem foldFields_spec (showNum : ℚ → List Char)
    (entries : List (List Char × Option ℚ)) :
    ∀ buf : List Char,
      (entries.foldl (writeFieldStep showNum) (buf, true) =
        (buf ++ joinComma (entries.filterMap fun e =>
          e.2.map fun v => e.1 ++ '=' :: showNum v),
         (entries.filterMap fun e =>
           e.2.map fun v => e.1 ++ '=' :: showNum v).isEmpty)) ∧
      (entries.foldl (writeFieldStep showNum) (buf, false) =
        (buf ++ joinCommaTail (entries.filterMap fun e =>
          e.2.map fun v => e.1 ++ '=' :: showNum v), false)) := by
  induction entries with
  | nil => intro buf; simp [joinComma, joinCommaTail]
  | cons e es ih =>
    intro buf
    obtain ⟨k, ov⟩ := e
    cases ov with
    | none =>
      simpa [List.foldl_cons, writeFieldStep] using ih buf
    | some v =>
      constructor
      · simp only [List.foldl_cons, writeFieldStep, List.filterMap_cons]
        rw [(ih _).2]
        simp [joinComma_cons, List.append_assoc]
      · simp only [List.foldl_cons, writeFieldStep, List.filterMap_cons]
        rw [(ih _).2]
        simp [joinCommaTail, List.append_assoc]

/-- `write_fields` appends the comma-joined rendered present fields, with
the acceleration triple last. -/
theorem write_fields_eq_spec (showNum : ℚ → List Char) (buf : List Char)
    (m : Measurement) :
    write_fields showNum buf m =
      buf ++ joinComma (specFields showNum m) := by
  unfold write_fields specFields
  rw [(foldFields_spec showNum (fieldEntries m) buf).1]
  cases hacc : m.acceleration with
  | none => simp
  | some xyz =>
    obtain ⟨x, y, z⟩ := xyz
    cases hpcs : (fieldEntries m).filterMap
        (fun e => e.2.map fun v => e.1 ++ '=' :: showNum v) with
    | nil =>
      simp [joinComma, joinCommaTail, joinComma_cons, List.append_assoc]
    | cons p ps =>
      simp [joinComma_cons, joinCommaTail_append, joinCommaTail,
        List.append_assoc]

/-- `format` produces exactly the spec's line shape. -/
theorem format_eq_specLine (showNum : ℚ → List Char) (series : List Char)
    (m : Measurement) (name : List Char) :
    (InfluxDbFormatter.new series).format showNum m name =
      specLine showNum series m name := by
  unfold InfluxDbFormatter.format specLine InfluxDbFormatter.new write_tags
    write_timestamp
  dsimp only
  rw [write_measurement_name_eq_spec, write_tag_value_eq_spec,
    write_fields_eq_spec]
  simp [List.append_assoc]

/-- **C6**: the encoder escapes series names by preceding each literal
comma and space with a backslash, and name-tag values by preceding each
literal comma, space and equals sign with a backslash, leaving every other
character unchanged (`specEscapeName` / `specEscapeTag` are exactly those
character-wise rules). -/
theorem escaping_correct :
    (∀ buf s : List Char,
      write_measurement_name buf s (needsMeasurementEscape s) =
        buf ++ specEscapeName s) ∧
    (∀ buf s : List Char,
      write_tag_value buf s = buf ++ specEscapeTag s) :=
  ⟨write_measurement_name_eq_spec, write_tag_value_eq_spec⟩

/-! ### The mac tag never needs escaping -/

theorem macRender_chars (mac : MacAddress) :
    ∀ c ∈ macRender mac, isUpperHexDigit c = true ∨ c = ':' := by
  intro c hc
  have i0 := mac.b0.isLt
  have i1 := mac.b1.isLt
  have i2 := mac.b2.isLt
  have i3 := mac.b3.isLt
  have i4 := mac.b4.isLt
  have i5 := mac.b5.isLt
  simp only [macRender, List.mem_cons, List.not_mem_nil, or_false] at hc
  rcases hc with rfl | rfl | rfl | rfl | rfl | rfl | rfl | rfl | rfl | rfl |
    rfl | rfl | rfl | rfl | rfl | rfl | rfl <;>
    first
      | (right; rfl)
      | (left; exact isUpperHexDigit_hexDigitUpper (by omega))

theorem upperHex_not_special {c : Char} (h : isUpperHexDigit c = true) :
    (c == ',' || c == '=' || c == ' ') = false := by
  have hne : c ≠ ',' ∧ c ≠ '=' ∧ c ≠ ' ' := by
    refine ⟨?_, ?_, ?_⟩ <;> rintro rfl <;> exact absurd h (by decide)
  simp [hne.1, hne.2.1, hne.2.2]

theorem needsTagEscape_macRender (mac : MacAddress) :
    needsTagEscape (macRender mac) = false := by
  unfold needsTagEscape
  rw [List.any_eq_false]
  intro c hc
  rcases macRender_chars mac c hc with h | rfl
  · simp [upperHex_not_special h]
  · decide

/-- **C10**: in every output line the mac tag value is written verbatim —
`write_tags` applies the escaping routine only to the name tag — and this
is well-formed because the canonical rendering consists only of uppercase
hex digits and colons, on which the tag-value escaping is the identity. -/
theorem mac_tag_verbatim (mac : MacAddress) (m : Measurement)
    (buf name : List Char) :
    (write_tags buf m name =
      buf ++ ",mac=".data ++ macRender m.mac ++ ",name=".data ++
        specEscapeTag name) ∧
    (∀ c ∈ macRender mac, isUpperHexDigit c = true ∨ c = ':') ∧
    needsTagEscape (macRender mac) = false ∧
    specEscapeTag (macRender mac) = macRender mac ∧
    write_tag_value buf (macRender mac) = buf ++ macRender mac := by
  refine ⟨?_, macRender_chars mac, needsTagEscape_macRender mac, ?_, ?_⟩
  · unfold write_tags
    rw [write_tag_value_eq_spec]
  · exact specEscapeTag_of_clean (needsTagEscape_macRender mac)
  · unfold write_tag_value
    rw [needsTagEscape_macRender]
    simp

/-- Witness for C10: the concrete address `AA:BB:CC:DD:EE:FF` next to a
name tag that does need escaping. -/
theorem mac_tag_verbatim_witness :
    write_tags []
        ⟨⟨170, 187, 204, 221, 238, 255⟩, 0, none, none, none, none, none,
          none, none, none, none, none, none, none, none⟩
        ['a', ' ', 'b'] =
      ",mac=AA:BB:CC:DD:EE:FF,name=a\\ b".data ∧
    needsTagEscape (macRender ⟨170, 187, 204, 221, 238, 255⟩) = false ∧
    specEscapeTag (macRender ⟨170, 187, 204, 221, 238, 255⟩) =
      macRender ⟨170, 187, 204, 221, 238, 255⟩ ∧
    write_tag_value [] (macRender ⟨170, 187, 204, 221, 238, 255⟩) =
      macRender ⟨170, 187, 204, 221, 238, 255⟩ ∧
    (isUpperHexDigit 'A' = true ∨ 'A' = ':') := by
  have h := mac_tag_verbatim ⟨170, 187, 204, 221, 238, 255⟩
    ⟨⟨170, 187, 204, 221, 238, 255⟩, 0, none, none, none, none, none, none,
      none, none, none, none, none, none, none⟩
    [] ['a', ' ', 'b']
  refine ⟨?_, h.2.2.1, h.2.2.2.1, h.2.2.2.2, h.2.1 'A' (by decide)⟩
  rw [h.1]
  decide

/-! ### The line ends in a timestamp digit and contains no newline -/

theorem getLast?_natChars (n : Nat) :
    ∃ c, (natChars n).getLast? = some c ∧ c.isDigit = true := by
  have hne := natChars_ne_nil n
  refine ⟨(natChars n).getLast hne,
    List.getLast?_eq_getLast_of_ne_nil hne, ?_⟩
  exact natChars_isDigit n _ (List.getLast_mem hne)

theorem getLast?_specLine_shape (P J : List Char) (n : Nat) :
    (P ++ (' ' :: (J ++ ' ' :: natChars n))).getLast? =
      (natChars n).getLast? := by
  rw [List.getLast?_append_of_ne_nil _ (by simp)]
  rw [show (' ' :: (J ++ ' ' :: natChars n)) =
    ((' ' :: J ++ [' ']) ++ natChars n) from by simp]
  rw [List.getLast?_append_of_ne_nil _ (natChars_ne_nil n)]

theorem newline_not_mem_specEscapeName {s : List Char} (h : '\n' ∉ s) :
    '\n' ∉ specEscapeName s := by
  intro hmem
  obtain ⟨c, hc, hin⟩ := List.mem_flatMap.mp hmem
  by_cases hcase : c = ',' ∨ c = ' '
  · rw [if_pos hcase] at hin
    rcases List.mem_cons.mp hin with h1 | h1
    · exact absurd h1 (by decide)
    · rcases List.mem_singleton.mp h1 with rfl
      exact h hc
  · rw [if_neg hcase] at hin
    rcases List.mem_singleton.mp hin with rfl
    exact h hc

theorem newline_not_mem_specEscapeTag {s : List Char} (h : '\n' ∉ s) :
    '\n' ∉ specEscapeTag s := by
  intro hmem
  obtain ⟨c, hc, hin⟩ := List.mem_flatMap.mp hmem
  by_cases hcase : c = ',' ∨ c = ' ' ∨ c = '='
  · rw [if_pos hcase] at hin
    rcases List.mem_cons.mp hin with h1 | h1
    · exact absurd h1 (by decide)
    · rcases List.mem_singleton.mp h1 with rfl
      exact h hc
  · rw [if_neg hcase] at hin
    rcases List.mem_singleton.mp hin with rfl
    exact h hc

theorem newline_not_mem_macRender (mac : MacAddress) :
    '\n' ∉ macRender mac := by
  intro hmem
  rcases macRender_chars mac _ hmem with h | h
  · exact absurd h (by decide)
  · exact absurd h (by decide)

theorem newline_not_mem_natChars (n : Nat) : '\n' ∉ natChars n := by
  intro hmem
  have := natChars_isDigit n _ hmem
  exact absurd this (by decide)

theorem mem_joinCommaTail {c : Char} {ps : List (List Char)}
    (h : c ∈ joinCommaTail ps) : c = ',' ∨ ∃ p ∈ ps, c ∈ p := by
  induction ps with
  | nil => simp [joinCommaTail] at h
  | cons p ps ih =>
    simp only [joinCommaTail, List.mem_cons, List.mem_append] at h
    rcases h with rfl | h | h
    · exact Or.inl rfl
    · exact Or.inr ⟨p, by simp, h⟩
    · rcases ih h with h1 | ⟨q, hq, hcq⟩
      · exact Or.inl h1
      · exact Or.inr ⟨q, by simp [hq], hcq⟩

theorem mem_joinComma {c : Char} {ps : List (List Char)}
    (h : c ∈ joinComma ps) : c = ',' ∨ ∃ p ∈ ps, c ∈ p := by
  cases ps with
  | nil => simp [joinComma] at h
  | cons p ps =>
    rw [joinComma_cons] at h
    rcases List.mem_append.mp h with h | h
    · exact Or.inr ⟨p, by simp, h⟩
    · rcases mem_joinCommaTail h with h1 | ⟨q, hq, hcq⟩
      · exact Or.inl h1
      · exact Or.inr ⟨q, by simp [hq], hcq⟩

theorem fieldEntries_name_no_newline (m : Measurement) :
    ∀ e ∈ fieldEntries m, '\n' ∉ e.1 := by
  intro e he
  simp only [fieldEntries, List.mem_cons, List.not_mem_nil, or_false] at he
  rcases he with rfl | rfl | rfl | rfl | rfl | rfl | rfl | rfl | rfl | rfl |
    rfl | rfl <;> dsimp only <;> decide

theorem newline_not_mem_specFields {showNum : ℚ → List Char}
    {m : Measurement} (hsn : ∀ q, '\n' ∉ showNum q) :
    ∀ s ∈ specFields showNum m, '\n' ∉ s := by
  intro s hs
  unfold specFields at hs
  rcases List.mem_append.mp hs with hs | hs
  · obtain ⟨e, he, hmap⟩ := List.mem_filterMap.mp hs
    obtain ⟨v, hv, rfl⟩ := Option.map_eq_some.mp hmap
    intro hmem
    rcases List.mem_append.mp hmem with h | h
    · exact fieldEntries_name_no_newline m e he h
    · rcases List.mem_cons.mp h with h | h
      · exact absurd h (by decide)
      · exact hsn v h
  · cases hacc : m.acceleration with
    | none => rw [hacc] at hs; simp at hs
    | some xyz =>
      obtain ⟨x, y, z⟩ := xyz
      rw [hacc] at hs
      simp only [List.mem_cons, List.not_mem_nil, or_false] at hs
      rcases hs with rfl | rfl | rfl <;>
        · intro hmem
          rcases List.mem_append.mp hmem with h | h
          · exact absurd h (by decide)
          · exact hsn _ h

/-- **C2**: `format` produces, for every measurement and resolved name,
exactly one line — escaped series name, verbatim `,mac=` tag, escaped
`,name=` tag, one space, the comma-joined `field=value` pairs of exactly
the non-absent fields (pressure ÷1000 to kPa, other units as stored), one
space, and the timestamp as integer nanoseconds clamped to zero before the
epoch.  The line ends in a timestamp digit (so there is no trailing
newline), an all-absent measurement still yields both tags, the separator
space and an empty field segment, and no newline occurs anywhere in the
line when none occurs in the inputs. -/
theorem influx_format_correct (showNum : ℚ → List Char) (series : List Char)
    (m : Measurement) (name : List Char) :
    ((InfluxDbFormatter.new series).format showNum m name =
      specLine showNum series m name) ∧
    (m.timestamp < 0 → clampNanos m.timestamp = 0) ∧
    (m.allAbsent →
      (InfluxDbFormatter.new series).format showNum m name =
        specEscapeName series ++ ",mac=".data ++ macRender m.mac ++
          ",name=".data ++ specEscapeTag name ++
          ' ' :: ' ' :: natChars (clampNanos m.timestamp)) ∧
    (∃ c, ((InfluxDbFormatter.new series).format showNum m name).getLast? =
      some c ∧ c.isDigit = true) ∧
    ('\n' ∉ series → '\n' ∉ name → (∀ q, '\n' ∉ showNum q) →
      '\n' ∉ (InfluxDbFormatter.new series).format showNum m name) := by
  refine ⟨format_eq_specLine showNum series m name, ?_, ?_, ?_, ?_⟩
  · intro h
    unfold clampNanos
    omega
  · intro habs
    obtain ⟨h1, h2, h3, h4, h5, h6, h7, h8, h9, h10, h11, h12, h13⟩ := habs
    rw [format_eq_specLine]
    unfold specLine specFields fieldEntries
    rw [h1, h2, h3, h4, h5, h6, h7, h8, h9, h10, h11, h12, h13]
    simp [joinComma]
  · rw [format_eq_specLine]
    unfold specLine
    obtain ⟨c, hc, hd⟩ := getLast?_natChars (clampNanos m.timestamp)
    refine ⟨c, ?_, hd⟩
    rw [getLast?_specLine_shape]
    exact hc
  · intro hs hn hq
    rw [format_eq_specLine]
    unfold specLine
    intro hmem
    rcases List.mem_append.mp hmem with h | h
    · rcases List.mem_append.mp h with h | h
      · rcases List.mem_append.mp h with h | h
        · rcases List.mem_append.mp h with h | h
          · rcases List.mem_append.mp h with h | h
            · exact newline_not_mem_specEscapeName hs h
            · exact absurd h (by decide)
          · exact newline_not_mem_macRender _ h
        · exact absurd h (by decide)
      · exact newline_not_mem_specEscapeTag hn h
    · rcases List.mem_cons.mp h with h | h
      · exact absurd h (by decide)
      · rcases List.mem_append.mp h with h | h
        · rcases mem_joinComma h with h | ⟨p, hp, hcp⟩
          · exact absurd h (by decide)
          · exact newline_not_mem_specFields hq p hp hcp
        · rcases List.mem_cons.mp h with h | h
          · exact absurd h (by decide)
          · exact newline_not_mem_natChars _ h

/-- Witness for C2: a measurement with a present temperature and pressure
and a pre-epoch timestamp, and an all-absent measurement, rendered with a
concrete numeric formatter. -/
theorem influx_format_correct_witness :
    (InfluxDbFormatter.new ['r', ' ', 't']).format (fun _ => ['1'])
        ⟨⟨170, 187, 204, 221, 238, 255⟩, -5, some 1, none, some 2000, none,
          none, none, none, none, none, none, none, none, none⟩
        ['a', '=', 'b'] =
      "r\\ t,mac=AA:BB:CC:DD:EE:FF,name=a\\=b temperature=1,pressure=1 0".data ∧
    clampNanos (-5) = 0 ∧
    (InfluxDbFormatter.new ['r', ' ', 't']).format (fun _ => ['1'])
        ⟨⟨170, 187, 204, 221, 238, 255⟩, 7, none, none, none, none, none,
          none, none, none, none, none, none, none, none⟩
        ['a', '=', 'b'] =
      "r\\ t,mac=AA:BB:CC:DD:EE:FF,name=a\\=b  7".data ∧
    (∃ c, ((InfluxDbFormatter.new ['r', ' ', 't']).format (fun _ => ['1'])
        ⟨⟨170, 187, 204, 221, 238, 255⟩, -5, some 1, none, some 2000, none,
          none, none, none, none, none, none, none, none, none⟩
        ['a', '=', 'b']).getLast? = some c ∧ c.isDigit = true) ∧
    '\n' ∉ (InfluxDbFormatter.new ['r', ' ', 't']).format (fun _ => ['1'])
        ⟨⟨170, 187, 204, 221, 238, 255⟩, -5, some 1, none, some 2000, none,
          none, none, none, none, none, none, none, none, none⟩
        ['a', '=', 'b'] := by
  have h1 := influx_format_correct (fun _ => ['1']) ['r', ' ', 't']
    ⟨⟨170, 187, 204, 221, 238, 255⟩, -5, some 1, none, some 2000, none,
      none, none, none, none, none, none, none, none, none⟩
    ['a', '=', 'b']
  have h2 := influx_format_correct (fun _ => ['1']) ['r', ' ', 't']
    ⟨⟨170, 187, 204, 221, 238, 255⟩, 7, none, none, none, none, none, none,
      none, none, none, none, none, none, none⟩
    ['a', '=', 'b']
  refine ⟨?_, h1.2.1 (by decide), ?_, h1.2.2.2.1,
    h1.2.2.2.2 (by decide) (by decide) (fun q => by decide)⟩
  · rw [h1.1]
    decide
  · rw [h2.2.2.1 (by exact ⟨rfl, rfl, rfl, rfl, rfl, rfl, rfl, rfl, rfl,
      rfl, rfl, rfl, rfl⟩)]
    decide

/-! ## Kernel BPF filter (`src/scanner/hci.rs`, `set_bpf_ruuvi_filter`)

The classic-BPF program is a list of `SockFilter` instructions built
exactly as in the source (placeholder jump offsets, then patched), and
evaluated by classic-BPF semantics: absolute loads past the end of the
packet drop it (verdict 0), `JEQ` adds `jt`/`jf` to the next pc, `RET`
returns the verdict. -/

/-- `sock_filter` -/
structure SockFilter where
  code : Nat
  jt : Nat
  jf : Nat
  k : Nat
deriving DecidableEq

/-- `BPF_LD` -/
def BPF_LD : Nat := 0x00
/-- `BPF_JMP` -/
def BPF_JMP : Nat := 0x05
/-- `BPF_RET` -/
def BPF_RET : Nat := 0x06
/-- `BPF_H` (16-bit load) -/
def BPF_H : Nat := 0x08
/-- `BPF_B` (byte load) -/
def BPF_B : Nat := 0x10
/-- `BPF_ABS` -/
def BPF_ABS : Nat := 0x20
/-- `BPF_JEQ` -/
def BPF_JEQ : Nat := 0x10
/-- `BPF_K` -/
def BPF_K : Nat := 0x00

/-- Absolute byte load opcode. -/
def BPF_LD_B_ABS : Nat := BPF_LD ||| BPF_B ||| BPF_ABS
/-- Absolute 16-bit (big-endian) load opcode. -/
def BPF_LD_H_ABS : Nat := BPF_LD ||| BPF_H ||| BPF_ABS
/-- Jump-if-equal-to-constant opcode. -/
def BPF_JMP_JEQ_K : Nat := BPF_JMP ||| BPF_JEQ ||| BPF_K
/-- Return-constant opcode. -/
def BPF_RET_K : Nat := BPF_RET ||| BPF_K

/-- `HCI_EVENT_PKT` -/
def HCI_EVENT_PKT : Nat := 0x04
/-- `EVT_LE_META_EVENT` -/
def EVT_LE_META_EVENT : Nat := 0x3E
/-- `EVT_LE_ADVERTISING_REPORT` -/
def EVT_LE_ADVERTISING_REPORT : Nat := 0x02
/-- `RUUVI_ID_BE` -/
def RUUVI_ID_BE : Nat := 0x9904

/-- Patch the false-branch offset of the instruction at `i`. -/
def patchJf (l : List SockFilter) (i v : Nat) : List SockFilter :=
  match l.get? i with
  | some ins => l.set i { ins with jf := v }
  | none => l

/-- Patch the true-branch offset of the instruction at `i`. -/
def patchJt (l : List SockFilter) (i v : Nat) : List SockFilter :=
  match l.get? i with
  | some ins => l.set i { ins with jt := v }
  | none => l

/-- The filter program of `set_bpf_ruuvi_filter`: three header checks, a
16-bit compare at every offset from 14 to 45, a reject and an accept
return, with the jump offsets patched in a second pass exactly as the
source does. -/
def ruuviBpfProgram : List SockFilter :=
  let headers : List SockFilter :=
    [⟨BPF_LD_B_ABS, 0, 0, 0⟩,
     ⟨BPF_JMP_JEQ_K, 0, 0, HCI_EVENT_PKT⟩,
     ⟨BPF_LD_B_ABS, 0, 0, 1⟩,
     ⟨BPF_JMP_JEQ_K, 0, 0, EVT_LE_META_EVENT⟩,
     ⟨BPF_LD_B_ABS, 0, 0, 3⟩,
     ⟨BPF_JMP_JEQ_K, 0, 0, EVT_LE_ADVERTISING_REPORT⟩]
  let checksStart := headers.length
  let checks : List SockFilter :=
    (List.range 32).flatMap fun i =>
      [⟨BPF_LD_H_ABS, 0, 0, 14 + i⟩, ⟨BPF_JMP_JEQ_K, 0, 0, RUUVI_ID_BE⟩]
  let rejectIdx := (headers ++ checks).length
  let acceptIdx := rejectIdx + 1
  let filter := headers ++ checks ++
    [⟨BPF_RET_K, 0, 0, 0⟩, ⟨BPF_RET_K, 0, 0, 0xFFFF⟩]
  let filter := patchJf filter 1 (rejectIdx - 2)
  let filter := patchJf filter 3 (rejectIdx - 4)
  let filter := patchJf filter 5 (rejectIdx - 6)
  (List.range 32).foldl
    (fun f i =>
      let checkIdx := checksStart + i * 2 + 1
      patchJt f checkIdx (acceptIdx - checkIdx - 1))
    filter

/-- One run of a classic-BPF program: fuel, program counter, accumulator.
Out-of-bounds absolute loads return verdict 0 (drop); falling off the
program or exhausting fuel yields no verdict. -/
def bpfRun (prog : List SockFilter) (buf : List Nat) :
    Nat → Nat → Nat → Option Nat
  | 0, _, _ => none
  | fuel + 1, pc, acc =>
    match prog.get? pc with
    | none => none
    | some ins =>
      if ins.code = BPF_LD_B_ABS then
        match buf.get? ins.k with
        | some v => bpfRun prog buf fuel (pc + 1) v
        | none => some 0
      else if ins.code = BPF_LD_H_ABS then
        match buf.get? ins.k, buf.get? (ins.k + 1) with
        | some hi, some lo => bpfRun prog buf fuel (pc + 1) (hi * 256 + lo)
        | _, _ => some 0
      else if ins.code = BPF_JMP_JEQ_K then
        if acc = ins.k then bpfRun prog buf fuel (pc + 1 + ins.jt) acc
        else bpfRun prog buf fuel (pc + 1 + ins.jf) acc
      else if ins.code = BPF_RET_K then some ins.k
      else none

/-- The verdict of the installed filter on a packet. -/
def bpfVerdict (prog : List SockFilter) (buf : List Nat) : Option Nat :=
  bpfRun prog buf 100 0 0

/-! ### Shape of the compiled program -/

theorem code_H_ne_B : BPF_LD_H_ABS ≠ BPF_LD_B_ABS := by decide

theorem code_J_ne_B : BPF_JMP_JEQ_K ≠ BPF_LD_B_ABS := by decide

theorem code_J_ne_H : BPF_JMP_JEQ_K ≠ BPF_LD_H_ABS := by decide

theorem code_R_ne_B : BPF_RET_K ≠ BPF_LD_B_ABS := by decide

theorem code_R_ne_H : BPF_RET_K ≠ BPF_LD_H_ABS := by decide

theorem code_R_ne_J : BPF_RET_K ≠ BPF_JMP_JEQ_K := by decide

theorem ruuvi_window_load :
    ∀ i, i < 32 →
      ruuviBpfProgram.get? (6 + 2 * i) = some ⟨BPF_LD_H_ABS, 0, 0, 14 + i⟩ := by
  decide

theorem ruuvi_window_jeq :
    ∀ i, i < 32 →
      ruuviBpfProgram.get? (7 + 2 * i) =
        some ⟨BPF_JMP_JEQ_K, 63 - 2 * i, 0, RUUVI_ID_BE⟩ := by
  decide

theorem ruuvi_reject_ins :
    ruuviBpfProgram.get? 70 = some ⟨BPF_RET_K, 0, 0, 0⟩ := by decide

theorem ruuvi_accept_ins :
    ruuviBpfProgram.get? 71 = some ⟨BPF_RET_K, 0, 0, 0xFFFF⟩ := by decide

/-! ### Single-step lemmas for the interpreter -/

theorem bpfRun_step_ldb {prog : List SockFilter} {buf : List Nat}
    {pc acc f jt jf k v : Nat}
    (hins : prog.get? pc = some ⟨BPF_LD_B_ABS, jt, jf, k⟩)
    (hv : buf.get? k = some v) :
    bpfRun prog buf (f + 1) pc acc = bpfRun prog buf f (pc + 1) v := by
  rw [List.get?_eq_getElem?] at hins hv
  simp [bpfRun, hins, hv]

theorem bpfRun_step_ldh {prog : List SockFilter} {buf : List Nat}
    {pc acc f jt jf k hi lo : Nat}
    (hins : prog.get? pc = some ⟨BPF_LD_H_ABS, jt, jf, k⟩)
    (hhi : buf.get? k = some hi) (hlo : buf.get? (k + 1) = some lo) :
    bpfRun prog buf (f + 1) pc acc =
      bpfRun prog buf f (pc + 1) (hi * 256 + lo) := by
  rw [List.get?_eq_getElem?] at hins hhi hlo
  simp [bpfRun, hins, hhi, hlo, code_H_ne_B]

theorem bpfRun_step_ldh_oob {prog : List SockFilter} {buf : List Nat}
    {pc acc f jt jf k : Nat}
    (hins : prog.get? pc = some ⟨BPF_LD_H_ABS, jt, jf, k⟩)
    (hoob : buf.get? k = none ∨ buf.get? (k + 1) = none) :
    bpfRun prog buf (f + 1) pc acc = some 0 := by
  rw [List.get?_eq_getElem?] at hins
  rcases hoob with h | h
  · rw [List.get?_eq_getElem?] at h
    simp [bpfRun, hins, h, code_H_ne_B]
  · rw [List.get?_eq_getElem?] at h
    cases hk : buf[k]? with
    | none => simp [bpfRun, hins, hk, code_H_ne_B]
    | some v => simp [bpfRun, hins, hk, h, code_H_ne_B]

theorem bpfRun_step_jeq_true {prog : List SockFilter} {buf : List Nat}
    {pc acc f jt jf k : Nat}
    (hins : prog.get? pc = some ⟨BPF_JMP_JEQ_K, jt, jf, k⟩)
    (h : acc = k) :
    bpfRun prog buf (f + 1) pc acc = bpfRun prog buf f (pc + 1 + jt) acc := by
  rw [List.get?_eq_getElem?] at hins
  simp [bpfRun, hins, h, code_J_ne_B, code_J_ne_H]

theorem bpfRun_step_jeq_false {prog : List SockFilter} {buf : List Nat}
    {pc acc f jt jf k : Nat}
    (hins : prog.get? pc = some ⟨BPF_JMP_JEQ_K, jt, jf, k⟩)
    (h : ¬ acc = k) :
    bpfRun prog buf (f + 1) pc acc = bpfRun prog buf f (pc + 1 + jf) acc := by
  rw [List.get?_eq_getElem?] at hins
  simp [bpfRun, hins, h, code_J_ne_B, code_J_ne_H]

theorem bpfRun_step_ret {prog : List SockFilter} {buf : List Nat}
    {pc acc f jt jf k : Nat}
    (hins : prog.get? pc = some ⟨BPF_RET_K, jt, jf, k⟩) :
    bpfRun prog buf (f + 1) pc acc = some k := by
  rw [List.get?_eq_getElem?] at hins
  simp [bpfRun, hins, code_R_ne_B, code_R_ne_H, code_R_ne_J]

/-! ### Executing the window-check loop -/

/-- If the Ruuvi identifier bytes appear at some not-yet-checked window
offset, running from the corresponding check yields the accept verdict. -/
theorem bpf_accept_loop (buf : List Nat) :
    ∀ n, n ≤ 32 → ∀ fuel acc j, 2 * n + 1 ≤ fuel → 46 - n ≤ j → j ≤ 45 →
      buf.get? j = some 0x99 → buf.get? (j + 1) = some 0x04 →
      bpfRun ruuviBpfProgram buf fuel (70 - 2 * n) acc = some 0xFFFF := by
  intro n
  induction n with
  | zero => intro _ fuel acc j _ hj1 hj2 _ _; omega
  | succ n ih =>
    intro hn fuel acc j hfuel hj1 hj2 hhi hlo
    obtain ⟨f, rfl⟩ : ∃ f, fuel = f + 1 + 1 + 1 := ⟨fuel - 3, by omega⟩
    have hi32 : 31 - n < 32 := by omega
    have hload := ruuvi_window_load (31 - n) hi32
    have hjeq := ruuvi_window_jeq (31 - n) hi32
    rw [show 7 + 2 * (31 - n) = 6 + 2 * (31 - n) + 1 from by omega] at hjeq
    rw [show 70 - 2 * (n + 1) = 6 + 2 * (31 - n) from by omega]
    by_cases hj : j = 45 - n
    · have hk1 : buf.get? (14 + (31 - n)) = some 153 := by
        rw [show 14 + (31 - n) = j from by omega]; exact hhi
      have hk2 : buf.get? (14 + (31 - n) + 1) = some 4 := by
        rw [show 14 + (31 - n) + 1 = j + 1 from by omega]; exact hlo
      rw [bpfRun_step_ldh hload hk1 hk2]
      rw [bpfRun_step_jeq_true hjeq (by decide)]
      rw [show 6 + 2 * (31 - n) + 1 + 1 + (63 - 2 * (31 - n)) = 71 from
        by omega]
      exact bpfRun_step_ret ruuvi_accept_ins
    · have hjlen : j + 1 < buf.length := by
        by_contra hcon
        rw [List.get?_eq_none.mpr (by omega)] at hlo
        exact Option.noConfusion hlo
      obtain ⟨hi0, hk1⟩ : ∃ v, buf.get? (14 + (31 - n)) = some v := by
        cases hx : buf.get? (14 + (31 - n)) with
        | none => exact absurd (List.get?_eq_none.mp hx) (by omega)
        | some v => exact ⟨v, rfl⟩
      obtain ⟨lo0, hk2⟩ : ∃ v, buf.get? (14 + (31 - n) + 1) = some v := by
        cases hx : buf.get? (14 + (31 - n) + 1) with
        | none => exact absurd (List.get?_eq_none.mp hx) (by omega)
        | some v => exact ⟨v, rfl⟩
      rw [bpfRun_step_ldh hload hk1 hk2]
      by_cases heq : hi0 * 256 + lo0 = RUUVI_ID_BE
      · rw [bpfRun_step_jeq_true hjeq heq]
        rw [show 6 + 2 * (31 - n) + 1 + 1 + (63 - 2 * (31 - n)) = 71 from
          by omega]
        exact bpfRun_step_ret ruuvi_accept_ins
      · rw [bpfRun_step_jeq_false hjeq heq]
        rw [show 6 + 2 * (31 - n) + 1 + 1 + 0 = 70 - 2 * n from by omega]
        exact ih (by omega) (f + 1) _ j (by omega) (by omega) hj2 hhi hlo

/-- If no window offset (from the not-yet-checked ones on) holds the Ruuvi
identifier bytes, running from the corresponding check yields the drop
verdict — either by falling through to the reject return or via an
out-of-bounds load. -/
theorem bpf_reject_loop (buf : List Nat) (hbytes : ∀ b ∈ buf, b < 256) :
    ∀ n, n ≤ 32 → ∀ fuel acc, 2 * n + 1 ≤ fuel →
      (∀ j, 46 - n ≤ j → j ≤ 45 →
        ¬(buf.get? j = some 0x99 ∧ buf.get? (j + 1) = some 0x04)) →
      bpfRun ruuviBpfProgram buf fuel (70 - 2 * n) acc = some 0 := by
  intro n
  induction n with
  | zero =>
    intro _ fuel acc hfuel _
    obtain ⟨f, rfl⟩ : ∃ f, fuel = f + 1 := ⟨fuel - 1, by omega⟩
    exact bpfRun_step_ret ruuvi_reject_ins
  | succ n ih =>
    intro hn fuel acc hfuel hnone
    obtain ⟨f, rfl⟩ : ∃ f, fuel = f + 1 + 1 + 1 := ⟨fuel - 3, by omega⟩
    have hi32 : 31 - n < 32 := by omega
    have hload := ruuvi_window_load (31 - n) hi32
    have hjeq := ruuvi_window_jeq (31 - n) hi32
    rw [show 7 + 2 * (31 - n) = 6 + 2 * (31 - n) + 1 from by omega] at hjeq
    rw [show 70 - 2 * (n + 1) = 6 + 2 * (31 - n) from by omega]
    cases hk1 : buf.get? (14 + (31 - n)) with
    | none => exact bpfRun_step_ldh_oob hload (Or.inl hk1)
    | some hi0 =>
      cases hk2 : buf.get? (14 + (31 - n) + 1) with
      | none => exact bpfRun_step_ldh_oob hload (Or.inr hk2)
      | some lo0 =>
        have heq : ¬ hi0 * 256 + lo0 = RUUVI_ID_BE := by
          intro habs
          have hhi0 := hbytes hi0 (List.get?_mem hk1)
          have hlo0 := hbytes lo0 (List.get?_mem hk2)
          have hhi153 : hi0 = 153 := by
            unfold RUUVI_ID_BE at habs; omega
          have hlo4 : lo0 = 4 := by
            unfold RUUVI_ID_BE at habs; omega
          subst hhi153; subst hlo4
          refine hnone (14 + (31 - n)) (by omega) (by omega) ⟨hk1, hk2⟩
        rw [bpfRun_step_ldh hload hk1 hk2]
        rw [bpfRun_step_jeq_false hjeq heq]
        rw [show 6 + 2 * (31 - n) + 1 + 1 + 0 = 70 - 2 * n from by omega]
        refine ih (by omega) (f + 1) _ (by omega) ?_
        intro j hj1 hj2
        exact hnone j (by omega) hj2

/-- The three header checks pass on a packet with the right event-type,
event-code and sub-event bytes, landing at the first window check. -/
theorem bpf_header_steps (buf : List Nat) (h0 : buf.get? 0 = some 0x04)
    (h1 : buf.get? 1 = some 0x3E) (h3 : buf.get? 3 = some 0x02) (f : Nat) :
    bpfRun ruuviBpfProgram buf (f + 1 + 1 + 1 + 1 + 1 + 1) 0 0 =
      bpfRun ruuviBpfProgram buf f 6 2 := by
  have p0 : ruuviBpfProgram.get? 0 = some ⟨BPF_LD_B_ABS, 0, 0, 0⟩ := by
    decide
  have p1 : ruuviBpfProgram.get? 1 =
      some ⟨BPF_JMP_JEQ_K, 0, 68, HCI_EVENT_PKT⟩ := by decide
  have p2 : ruuviBpfProgram.get? 2 = some ⟨BPF_LD_B_ABS, 0, 0, 1⟩ := by
    decide
  have p3 : ruuviBpfProgram.get? 3 =
      some ⟨BPF_JMP_JEQ_K, 0, 66, EVT_LE_META_EVENT⟩ := by decide
  have p4 : ruuviBpfProgram.get? 4 = some ⟨BPF_LD_B_ABS, 0, 0, 3⟩ := by
    decide
  have p5 : ruuviBpfProgram.get? 5 =
      some ⟨BPF_JMP_JEQ_K, 0, 64, EVT_LE_ADVERTISING_REPORT⟩ := by decide
  rw [bpfRun_step_ldb p0 h0]
  rw [bpfRun_step_jeq_true p1 (by decide)]
  rw [bpfRun_step_ldb p2 h1]
  rw [show (0 : Nat) + 1 + 1 + 0 + 1 = 3 from rfl]
  rw [bpfRun_step_jeq_true p3 (by decide)]
  rw [bpfRun_step_ldb p4 h3]
  rw [show (3 : Nat) + 1 + 0 + 1 = 5 from rfl]
  rw [bpfRun_step_jeq_true p5 (by decide)]

/-- **C4**: every patched jump offset in the compiled filter equals the
target instruction's index minus the jumping instruction's index minus one
(reject sits at 70, accept at 71); a packet with the HCI event-type,
LE-meta event-code and advertising-report sub-event bytes that carries the
big-endian vendor identifier `0x9904` at one of the scanned offsets 14–45
is kept (verdict `0xFFFF`), and such a packet with the identifier absent
from every scanned offset is dropped (verdict `0`). -/
theorem bpf_filter_correct :
    (ruuviBpfProgram.get? 70 = some ⟨BPF_RET_K, 0, 0, 0⟩ ∧
     ruuviBpfProgram.get? 71 = some ⟨BPF_RET_K, 0, 0, 0xFFFF⟩ ∧
     (ruuviBpfProgram.get? 1).map SockFilter.jf = some (70 - 1 - 1) ∧
     (ruuviBpfProgram.get? 3).map SockFilter.jf = some (70 - 3 - 1) ∧
     (ruuviBpfProgram.get? 5).map SockFilter.jf = some (70 - 5 - 1) ∧
     (∀ i, i < 32 →
       (ruuviBpfProgram.get? (6 + 2 * i + 1)).map SockFilter.jt =
         some (71 - (6 + 2 * i + 1) - 1))) ∧
    (∀ buf : List Nat,
      buf.get? 0 = some 0x04 → buf.get? 1 = some 0x3E →
      buf.get? 3 = some 0x02 →
      (∃ j, 14 ≤ j ∧ j ≤ 45 ∧ buf.get? j = some 0x99 ∧
        buf.get? (j + 1) = some 0x04) →
      bpfVerdict ruuviBpfProgram buf = some 0xFFFF) ∧
    (∀ buf : List Nat, (∀ b ∈ buf, b < 256) →
      buf.get? 0 = some 0x04 → buf.get? 1 = some 0x3E →
      buf.get? 3 = some 0x02 →
      (∀ j, 14 ≤ j → j ≤ 45 →
        ¬(buf.get? j = some 0x99 ∧ buf.get? (j + 1) = some 0x04)) →
      bpfVerdict ruuviBpfProgram buf = some 0) := by
  refine ⟨⟨by decide, by decide, by decide, by decide, by decide,
    by decide⟩, ?_, ?_⟩
  · intro buf h0 h1 h3 ⟨j, hj1, hj2, hhi, hlo⟩
    unfold bpfVerdict
    rw [show (100 : Nat) = 94 + 1 + 1 + 1 + 1 + 1 + 1 from rfl]
    rw [bpf_header_steps buf h0 h1 h3 94]
    rw [show (6 : Nat) = 70 - 2 * 32 from by norm_num]
    exact bpf_accept_loop buf 32 (le_refl 32) 94 2 j (by omega) (by omega)
      hj2 hhi hlo
  · intro buf hbytes h0 h1 h3 hnone
    unfold bpfVerdict
    rw [show (100 : Nat) = 94 + 1 + 1 + 1 + 1 + 1 + 1 from rfl]
    rw [bpf_header_steps buf h0 h1 h3 94]
    rw [show (6 : Nat) = 70 - 2 * 32 from by norm_num]
    refine bpf_reject_loop buf hbytes 32 (le_refl 32) 94 2 (by omega) ?_
    intro j hj1 hj2
    exact hnone j (by omega) hj2

/-- Witness for C4: a 16-byte packet with a matching header and the vendor
identifier at offset 14 is kept; the same packet with those two bytes
zeroed is dropped. -/
theorem bpf_filter_correct_witness :
    bpfVerdict ruuviBpfProgram
      [0x04, 0x3E, 0x0C, 0x02, 0, 0, 0, 0, 0, 0, 0, 0, 0, 0, 0x99, 0x04] =
      some 0xFFFF ∧
    bpfVerdict ruuviBpfProgram
      [0x04, 0x3E, 0x0C, 0x02, 0, 0, 0, 0, 0, 0, 0, 0, 0, 0, 0, 0] =
      some 0 ∧
    (ruuviBpfProgram.get? 7).map SockFilter.jt = some (71 - 7 - 1) := by
  have h := bpf_filter_correct
  refine ⟨?_, ?_, by decide⟩
  · exact h.2.1 _ (by decide) (by decide) (by decide)
      ⟨14, by decide, by decide, by decide, by decide⟩
  · refine h.2.2 _ (by decide) (by decide) (by decide) (by decide) ?_
    intro j hj1 hj2
    interval_cases j <;> decide

/-- The offsets loaded by the 16-bit window checks of the compiled
filter. -/
def windowLoadOffsets : List Nat :=
  (ruuviBpfProgram.filter (fun ins => ins.code == BPF_LD_H_ABS)).map
    (fun ins => ins.k)

/-- Counterexample to C5: offset 15 is loaded by a window check although it
is not 2-byte aligned, so the loaded offsets are not exactly the 2-byte
aligned offsets of the window. -/
theorem window_offsets_not_aligned :
    ¬ (∀ k, k ∈ windowLoadOffsets ↔ (14 ≤ k ∧ k ≤ 45 ∧ k % 2 = 0)) := by
  intro h
  have h15 : 15 ∈ windowLoadOffsets := by decide
  have := (h 15).mp h15
  omega

/-- **C5 (amended)**: the vendor-identifier 16-bit load-and-compare checks
occur at every byte offset of the scan window 14–45 (overlapping,
stride 1), and at no other offsets. -/
theorem window_offsets_every_byte :
    windowLoadOffsets = List.range' 14 32 ∧
    (∀ k, k ∈ windowLoadOffsets ↔ (14 ≤ k ∧ k ≤ 45)) := by
  refine ⟨by decide, ?_⟩
  intro k
  rw [show windowLoadOffsets = List.range' 14 32 from by decide]
  rw [List.mem_range']
  constructor
  · rintro ⟨i, hi, rfl⟩
    omega
  · intro hk
    exact ⟨k - 14, by omega, by omega⟩
